import Mathlib

/-!
Verification of the hierarchical power-report parser and pivot engine
(file power_parsing/parse_power_report.py: class one_power_group and class
power_hierarchy).  The Python code is shallowly embedded: dictionaries become
insertion-ordered association lists, floats become exact rationals, exceptions
become an explicit error monad, and the two fixed record regexes are embedded
as an executable backtracking matcher over the same item sequence (greedy
quantifiers with Python preference order, leftmost search).
-/

namespace PowerReport

/-- The two report dialects, source strings 'Power Compiler' and 'Prime Power'
(field self.logfile_format). -/
inductive Dialect where
  | PowerCompiler
  | PrimePower
deriving DecidableEq, Repr

/-- A table cell: a Python value appearing in the 2-D data rows (a hierarchy
name or type name string, a power number, or the None padding placeholder). -/
inductive Cell where
  | str (s : String)
  | num (q : Rat)
  | null
deriving DecidableEq, Repr

/-- Leaf record: class one_power_group.  In the Power Compiler dialect the
glitch and x-tran fields hold None, hence Option. -/
structure one_power_group where
  logfile_format : Dialect
  instance_name : String
  type_name : String
  switching_power : Rat
  internal_power : Rat
  leakage_power : Rat
  total_power : Rat
  pct : Rat
  glitch_power : Option Rat
  x_tran_power : Option Rat
deriving DecidableEq, Repr

/-- Helper: a possibly-None float rendered as a cell. -/
def optCell : Option Rat → Cell
  | some q => Cell.num q
  | none => Cell.null

/-- one_power_group.get_data: the tuple of values per dialect (the line order
of the Python return statements). -/
def one_power_group.get_data (g : one_power_group) : List Cell :=
  match g.logfile_format with
  | Dialect.PowerCompiler =>
      [Cell.num g.switching_power, Cell.num g.internal_power,
       Cell.num g.leakage_power, Cell.num g.total_power, Cell.num g.pct,
       Cell.str g.type_name]
  | Dialect.PrimePower =>
      [Cell.num g.internal_power, Cell.num g.switching_power,
       Cell.num g.leakage_power, optCell g.glitch_power,
       optCell g.x_tran_power, Cell.num g.total_power, Cell.num g.pct,
       Cell.str g.type_name]

/-- one_power_group.get_header: the column names per dialect. -/
def one_power_group.get_header (logfile_format : Dialect) : List String :=
  match logfile_format with
  | Dialect.PowerCompiler =>
      ["Switching Power (mW)", "Internal Power (mW)", "Leakage Power (uW)",
       "Total Power (mW)", "Pct of Total Power", "Module Type Name"]
  | Dialect.PrimePower =>
      ["Internal Power (W)", "Switching Power (W)", "Leakage Power (W)",
       "Glitch Power (W)", "X-tran Power (W)", "Total Power (W)",
       "Pct of Total Power", "Module Type Name"]

/-! ## A small backtracking regex matcher

The parser uses re.search with two fixed patterns built from the pieces
\s* \w+ \s+ \(* \w* \)* and the number pattern
sci_num = \d+\.\d+e?[-+]?\d*, plus literal characters.  Every quantifier in
those patterns sits on a single-character class, so a regex is embedded as a
flat sequence of items; the matcher implements Python semantics: greedy
quantifiers tried longest-first, '?' tried present-first, search tried at
successive start positions (leftmost match). -/

/-- One regex item over a single-character class (or a literal, or the end
anchor written as a dollar sign in pattern strings). -/
inductive SItem where
  | lit (c : Char)
  | cls (f : Char → Bool)
  | star (f : Char → Bool)
  | plus (f : Char → Bool)
  | opt (f : Char → Bool)
  | eos

/-- A top-level item: either a plain item or a capturing group (group number
and its item sequence; the source patterns never nest groups). -/
inductive TItem where
  | simple (it : SItem)
  | grp (n : Nat) (items : List SItem)

/-- Length of the maximal run of class characters at the head. -/
def charRun (f : Char → Bool) : List Char → Nat
  | [] => 0
  | c :: cs => if f c then charRun f cs + 1 else 0

/-- Try dropping n, n-1, ..., 0 characters (greedy: longest first). -/
def tryDrops (k : List Char → Option α) (s : List Char) : Nat → Option α
  | 0 => k s
  | n + 1 => (k (s.drop (n + 1))) <|> tryDrops k s n

/-- Try dropping n, n-1, ..., 1 characters (greedy plus: at least one). -/
def tryDropsPos (k : List Char → Option α) (s : List Char) : Nat → Option α
  | 0 => none
  | n + 1 => (k (s.drop (n + 1))) <|> tryDropsPos k s n

/-- Match a sequence of simple items against the head of s, with backtracking,
in Python preference order, passing the remaining suffix to the
continuation. -/
def matchSimple : List SItem → List Char → (List Char → Option α) → Option α
  | [], s, k => k s
  | SItem.lit c :: rest, s, k =>
    match s with
    | [] => none
    | c' :: t => if c' = c then matchSimple rest t k else none
  | SItem.cls f :: rest, s, k =>
    match s with
    | [] => none
    | c' :: t => if f c' then matchSimple rest t k else none
  | SItem.star f :: rest, s, k =>
    tryDrops (fun s' => matchSimple rest s' k) s (charRun f s)
  | SItem.plus f :: rest, s, k =>
    tryDropsPos (fun s' => matchSimple rest s' k) s (charRun f s)
  | SItem.opt f :: rest, s, k =>
    match s with
    | [] => matchSimple rest [] k
    | c' :: t =>
      if f c' then (matchSimple rest t k) <|> (matchSimple rest s k)
      else matchSimple rest s k
  | SItem.eos :: rest, s, k =>
    match s with
    | [] => matchSimple rest [] k
    | _ :: _ => none

/-- Match a sequence of top items, accumulating captured group spans. -/
def matchTop : List TItem → List Char → List (Nat × List Char) →
    (List Char → List (Nat × List Char) → Option α) → Option α
  | [], s, caps, k => k s caps
  | TItem.simple it :: rest, s, caps, k =>
    matchSimple [it] s (fun s' => matchTop rest s' caps k)
  | TItem.grp n items :: rest, s, caps, k =>
    matchSimple items s (fun s' =>
      matchTop rest s' (caps ++ [(n, s.take (s.length - s'.length))]) k)

/-- re.search: try a match at position 0, then at each later start position
(leftmost match wins); on success return the captured groups. -/
def searchFrom (items : List TItem) : List Char → Option (List (Nat × List Char))
  | [] => matchTop items [] [] (fun _ caps => some caps)
  | c :: t =>
    (matchTop items (c :: t) [] (fun _ caps => some caps)) <|> searchFrom items t

/-- Python character class \w on ASCII input. -/
def isWordChar (c : Char) : Bool := c.isAlphanum || c = '_'

/-- Python character class \s on ASCII input. -/
def isSpaceChar (c : Char) : Bool :=
  c = ' ' || c = '\t' || c = '\n' || c = '\r' || c = '\x0b' || c = '\x0c'

/-- Sign characters of the class written as minus-or-plus in sci_num. -/
def isSignChar (c : Char) : Bool := c = '-' || c = '+'

/-- Items of sci_num = \d+\.\d+e?[-+]?\d* ("there may be a number like
3.7858e-02 or 68.9913"). -/
def sciNumItems : List SItem :=
  [SItem.plus Char.isDigit, SItem.lit '.', SItem.plus Char.isDigit,
   SItem.opt (fun c => c = 'e'), SItem.opt isSignChar, SItem.star Char.isDigit]

/-- The whitespace separator \s+ as a top item. -/
def spPlus : TItem := TItem.simple (SItem.plus isSpaceChar)

/-- A captured number ({sci_num}) as group n. -/
def grpSci (n : Nat) : TItem := TItem.grp n sciNumItems

/-- An uncaptured number {sci_num} (the ignored peak fields of Prime Power). -/
def sciPlain : List TItem := sciNumItems.map TItem.simple

/-- The shared head (\s*)(\w+)\s+\(*(\w*)\)*\s+ of both record patterns:
indentation, instance name, optional parenthesized type name. -/
def headItems : List TItem :=
  [TItem.grp 1 [SItem.star isSpaceChar],
   TItem.grp 2 [SItem.plus isWordChar],
   spPlus,
   TItem.simple (SItem.star (fun c => c = '(')),
   TItem.grp 3 [SItem.star isWordChar],
   TItem.simple (SItem.star (fun c => c = ')')),
   spPlus]

/-- The Power Compiler record pattern:
(\s*)(\w+)\s+\(*(\w*)\)*\s+({sci})\s+({sci})\s+({sci})\s+({sci})\s+({sci})\s+ -/
def pcItems : List TItem :=
  headItems ++
  [grpSci 4, spPlus, grpSci 5, spPlus, grpSci 6, spPlus, grpSci 7, spPlus,
   grpSci 8, spPlus]

/-- The Prime Power record pattern:
(\s*)(\w+)\s+\(*(\w*)\)*\s+({sci})\s+({sci})\s+({sci})\s+{sci}\s+{sci}-{sci}\s+
({sci})\s+({sci})\s+({sci})\s+({sci}) -/
def ppItems : List TItem :=
  headItems ++
  [grpSci 4, spPlus, grpSci 5, spPlus, grpSci 6, spPlus] ++
  sciPlain ++ [spPlus] ++ sciPlain ++ [TItem.simple (SItem.lit '-')] ++
  sciPlain ++ [spPlus] ++
  [grpSci 7, spPlus, grpSci 8, spPlus, grpSci 9, spPlus, grpSci 10]

/-- Read a captured group as a string (empty when absent, as for a
zero-length star group). -/
def capGet (caps : List (Nat × List Char)) (n : Nat) : String :=
  match caps.find? (fun p => p.1 == n) with
  | some p => String.mk p.2
  | none => ""

/-- re.search of a record pattern over a line. -/
def recordSearch (items : List TItem) (line : String) :
    Option (List (Nat × List Char)) :=
  searchFrom items line.toList

/-- Value of digit characters read in base 10. -/
def digitsToNat (l : List Char) : Nat :=
  l.foldl (fun a c => a * 10 + (c.toNat - 48)) 0

/-- Python float() applied to a string captured by the sci_num pattern
(shape: digits, dot, digits, then optionally e, an optional sign and
digit tail).  float() accepts the string exactly when the exponent part, if
started by e or by a bare sign, is completed by at least one digit; a
trailing bare e, e-, e+ or sign raises ValueError (returned here as none).
Values are read exactly into rationals. -/
def pyFloatQ? (s : String) : Option Rat :=
  let l := s.toList
  let intPart := l.takeWhile Char.isDigit
  let rest1 := l.dropWhile Char.isDigit
  match intPart, rest1 with
  | [], _ => none
  | _ :: _, '.' :: rest2 =>
    let frac := rest2.takeWhile Char.isDigit
    let rest3 := rest2.dropWhile Char.isDigit
    match frac with
    | [] => none
    | _ :: _ =>
      let mant : Rat :=
        (digitsToNat intPart : Rat) + (digitsToNat frac : Rat) / ((10 : Rat) ^ frac.length)
      match rest3 with
      | [] => some mant
      | 'e' :: rest4 =>
        let signNeg : Bool := match rest4 with
          | '-' :: _ => true
          | _ => false
        let rest5 : List Char := match rest4 with
          | '-' :: r => r
          | '+' :: r => r
          | r => r
        let ed := rest5.takeWhile Char.isDigit
        let rest6 := rest5.dropWhile Char.isDigit
        match ed, rest6 with
        | [], _ => none
        | _ :: _, _ :: _ => none
        | _ :: _, [] =>
          let e := digitsToNat ed
          some (if signNeg then mant / ((10 : Rat) ^ e) else mant * ((10 : Rat) ^ e))
      | _ :: _ => none
  | _ :: _, _ => none

/-! ## Pattern strings

The remaining re.search call sites receive pattern strings ('Hierarchy',
'Glitch|X-tran', '\^*<top block>', and the caller-supplied filter strings,
possibly rewritten with the prefix '^<top block>\.').  These are parsed into
the same item language: top-level alternation, an optional leading caret
anchor, single-character atoms (plain, backslash-escaped, the classes written
backslash-w, backslash-d, backslash-s, the any-character dot, the end anchor
written as a dollar sign) with optional *, + or ? quantifier.  A pattern
outside this fragment is not parsed and the search reports no match. -/

/-- Split a pattern at top-level alternation bars, keeping escapes intact. -/
def splitAlt : List Char → List (List Char)
  | [] => [[]]
  | '\\' :: c :: rest =>
    match splitAlt rest with
    | b :: bs => ('\\' :: c :: b) :: bs
    | [] => [['\\', c]]
  | '|' :: rest => [] :: splitAlt rest
  | c :: rest =>
    match splitAlt rest with
    | b :: bs => (c :: b) :: bs
    | [] => [[c]]

/-- One pattern atom and the remaining characters. -/
def parseBase : List Char → Option (SItem × List Char)
  | [] => none
  | '\\' :: c :: rest =>
    some (match c with
      | 'w' => SItem.cls isWordChar
      | 'd' => SItem.cls Char.isDigit
      | 's' => SItem.cls isSpaceChar
      | _ => SItem.lit c, rest)
  | ['\\'] => none
  | '$' :: rest => some (SItem.eos, rest)
  | '.' :: rest => some (SItem.cls (fun _ => true), rest)
  | c :: rest =>
    if c = '*' || c = '+' || c = '?' || c = '(' || c = ')' || c = '[' ||
       c = ']' || c = '^' || c = '|' then none
    else some (SItem.lit c, rest)

/-- The class of an atom a quantifier can apply to. -/
def toCls : SItem → Option (Char → Bool)
  | SItem.lit c => some (fun c' => c' = c)
  | SItem.cls f => some f
  | _ => none

/-- Parse a quantified atom sequence (fuel bounds the recursion by the
pattern length). -/
def parseItems : Nat → List Char → Option (List SItem)
  | _, [] => some []
  | 0, _ :: _ => none
  | fuel + 1, l => do
    let (base, rest) ← parseBase l
    match rest with
    | '*' :: r => do
      let f ← toCls base
      let t ← parseItems fuel r
      pure (SItem.star f :: t)
    | '+' :: r => do
      let f ← toCls base
      let t ← parseItems fuel r
      pure (SItem.plus f :: t)
    | '?' :: r => do
      let f ← toCls base
      let t ← parseItems fuel r
      pure (SItem.opt f :: t)
    | _ => do
      let t ← parseItems fuel rest
      pure (base :: t)

/-- Parse one alternation branch: an optional leading anchor, then atoms. -/
def parseBranch (l : List Char) : Option (Bool × List SItem) :=
  match l with
  | '^' :: rest => do
    let it ← parseItems rest.length rest
    pure (true, it)
  | _ => do
    let it ← parseItems l.length l
    pure (false, it)

/-- Search with one parsed branch: anchored branches match only at the
start, others at any position. -/
def branchSearch (b : Bool × List SItem) (s : List Char) : Bool :=
  let items := b.2.map TItem.simple
  if b.1 then (matchTop items s [] (fun _ caps => some caps)).isSome
  else (searchFrom items s).isSome

/-- Boolean re.search over a pattern string (true exactly when Python's
re.search returns a match object, for patterns in the fragment above). -/
def rsearchStr (pat : String) (s : String) : Bool :=
  (splitAlt pat.toList).any (fun br =>
    match parseBranch br with
    | some b => branchSearch b s.toList
    | none => false)

/-! ## The hierarchy tree

self.data is a nested dictionary whose values are either nested dictionaries
or one_power_group leaves.  Python dictionaries preserve insertion order, so
the embedding uses insertion-ordered association lists. -/

/-- A tree node: an interior dictionary or a one_power_group leaf. -/
inductive Node where
  | interior (children : List (String × Node))
  | leaf (g : one_power_group)

/-- The toplevel dictionary self.data. -/
abbrev Tree := List (String × Node)

/-- Dictionary lookup (dict indexing / the containment test on keys). -/
def alFind : Tree → String → Option Node
  | [], _ => none
  | (k', v) :: t, k => if k' = k then some v else alFind t k

/-- Dictionary store: replace in place if the key exists, else append
(Python insertion-order semantics). -/
def alSet : Tree → String → Node → Tree
  | [], k, v => [(k, v)]
  | (k', v') :: t, k, v =>
    if k' = k then (k, v) :: t else (k', v') :: alSet t k v

/-- The Python exceptions the embedded code can raise. -/
inductive PyErr where
  | typeError
  | attributeError
  | indexError
  | valueError
  | stopIteration
  | keyError
  | assertionError (msg : String)
deriving DecidableEq, Repr

/-- The insertion walk of read_logfile: walk/create dictionary nodes for
every element of hier_list, then set the instance-name key of the final
dictionary to the new record.  Descending into a one_power_group raises:
AttributeError on the keys() call of the following loop iteration, or
TypeError on the final item assignment when the leaf sat at the last path
element.  The final assignment itself is a plain dictionary store.
(The Python original mutates while walking, so a failing walk leaves earlier
created nodes behind; the raised error aborts read_logfile either way, and
the partially mutated tree is never returned, so the error result drops
them.) -/
def walkInsert (t : Tree) (path : List String) (inst : String)
    (g : one_power_group) : Except PyErr Tree :=
  match path with
  | [] => Except.ok (alSet t inst (Node.leaf g))
  | p :: rest =>
    match alFind t p with
    | none =>
      match walkInsert [] rest inst g with
      | Except.ok m => Except.ok (alSet t p (Node.interior m))
      | Except.error e => Except.error e
    | some (Node.interior m) =>
      match walkInsert m rest inst g with
      | Except.ok m' => Except.ok (alSet t p (Node.interior m'))
      | Except.error e => Except.error e
    | some (Node.leaf _) =>
      Except.error (if rest.isEmpty then PyErr.typeError else PyErr.attributeError)

/-- The hier_list maintenance of read_logfile: push the instance name when
the level rose, pop (prev_level - level) entries when it fell (IndexError
when the list runs out), then overwrite the last element with the instance
name (IndexError on an empty list). -/
def updStack (stk : List String) (prev : Int) (level : Nat) (inst : String) :
    Except PyErr (List String) :=
  match (if (level : Int) > prev then Except.ok (stk ++ [inst])
    else if (level : Int) < prev then
      (if stk.length < (prev - (level : Int)).toNat then Except.error PyErr.indexError
       else Except.ok (stk.take (stk.length - (prev - (level : Int)).toNat)))
    else Except.ok stk : Except PyErr (List String)) with
  | Except.error e => Except.error e
  | Except.ok [] => Except.error PyErr.indexError
  | Except.ok (s :: ss) => Except.ok ((s :: ss).dropLast ++ [inst])

/-- Parser loop state: the flag, the latched dialect, the path stack, the
previous accepted level and the tree under construction. -/
structure LoopSt where
  look_for_power_nums : Bool
  logfile_format : Dialect
  hier_list : List String
  prev_level : Int
  data : Tree

/-- Stack update, insertion and prev_level update for one accepted record. -/
def stepRecord (st : LoopSt) (level : Nat) (inst : String)
    (g : one_power_group) : Except PyErr LoopSt :=
  match updStack st.hier_list st.prev_level level inst with
  | Except.error e => Except.error e
  | Except.ok stk' =>
    match walkInsert st.data stk' inst g with
    | Except.error e => Except.error e
    | Except.ok t' =>
      Except.ok { st with hier_list := stk', prev_level := (level : Int), data := t' }

/-- float() lifted into the error monad (ValueError on rejection). -/
def toFloat (s : String) : Except PyErr Rat :=
  match pyFloatQ? s with
  | some q => Except.ok q
  | none => Except.error PyErr.valueError

/-- The max-depth skip test: self.max_depth is not None and level exceeds it. -/
def maxDepthSkip (max_depth : Option Nat) (level : Nat) : Bool :=
  match max_depth with
  | some d => decide (d < level)
  | none => false

/-- One body line of read_logfile: attempt the active dialect's record
pattern; an unmatched line is skipped (a verbose-only warning); on a match,
convert the numeric fields in source order (the leakage field is converted
only after the max-depth skip test), then run the stack/insert step. -/
def processBody (max_depth : Option Nat) (st : LoopSt) (line : String) :
    Except PyErr LoopSt :=
  match st.logfile_format with
  | Dialect.PowerCompiler =>
    match recordSearch pcItems line with
    | none => Except.ok st
    | some caps =>
      match toFloat (capGet caps 4) with
      | Except.error e => Except.error e
      | Except.ok switch_power =>
      match toFloat (capGet caps 5) with
      | Except.error e => Except.error e
      | Except.ok internal_power =>
      match toFloat (capGet caps 7) with
      | Except.error e => Except.error e
      | Except.ok total_power =>
      match toFloat (capGet caps 8) with
      | Except.error e => Except.error e
      | Except.ok pct =>
        if maxDepthSkip max_depth ((capGet caps 1).length / 2) then Except.ok st
        else
          match toFloat (capGet caps 6) with
          | Except.error e => Except.error e
          | Except.ok leakage_power =>
            stepRecord st ((capGet caps 1).length / 2) (capGet caps 2)
              ⟨st.logfile_format, capGet caps 2, capGet caps 3, switch_power,
               internal_power, leakage_power, total_power, pct, none, none⟩
  | Dialect.PrimePower =>
    match recordSearch ppItems line with
    | none => Except.ok st
    | some caps =>
      match toFloat (capGet caps 4) with
      | Except.error e => Except.error e
      | Except.ok internal_power =>
      match toFloat (capGet caps 5) with
      | Except.error e => Except.error e
      | Except.ok switch_power =>
      match toFloat (capGet caps 7) with
      | Except.error e => Except.error e
      | Except.ok glitch_power =>
      match toFloat (capGet caps 8) with
      | Except.error e => Except.error e
      | Except.ok x_tran_power =>
      match toFloat (capGet caps 9) with
      | Except.error e => Except.error e
      | Except.ok total_power =>
      match toFloat (capGet caps 10) with
      | Except.error e => Except.error e
      | Except.ok pct =>
        if maxDepthSkip max_depth ((capGet caps 1).length / 2) then Except.ok st
        else
          match toFloat (capGet caps 6) with
          | Except.error e => Except.error e
          | Except.ok leakage_power =>
            stepRecord st ((capGet caps 1).length / 2) (capGet caps 2)
              ⟨st.logfile_format, capGet caps 2, capGet caps 3, switch_power,
               internal_power, leakage_power, total_power, pct,
               some glitch_power, some x_tran_power⟩

/-- A fatal parse error together with the file/line context printed by the
except block of read_logfile before re-raising. -/
structure ParseErr where
  err : PyErr
  line_no : Nat
  line : String
deriving DecidableEq, Repr

/-- The line loop of read_logfile.  While seeking, a line containing
'Hierarchy' flips the flag and the following separator line is consumed with
next() (StopIteration at end of input; next() bypasses the enumerate
counter, so later reported line numbers advance by one, as in the source);
otherwise a line containing 'Glitch' or 'X-tran' latches the Prime Power
dialect.  In the body state each line goes through processBody and any
raised error is reported with the enumerate line number and line text. -/
def readLoop (max_depth : Option Nat) :
    List String → Nat → LoopSt → Except ParseErr LoopSt
  | [], _, st => Except.ok st
  | line :: rest, line_no, st =>
    if st.look_for_power_nums = false then
      if rsearchStr "Hierarchy" line then
        match rest with
        | [] => Except.error ⟨PyErr.stopIteration, line_no, line⟩
        | _ :: rest' =>
          readLoop max_depth rest' (line_no + 1) { st with look_for_power_nums := true }
      else if rsearchStr "Glitch|X-tran" line then
        readLoop max_depth rest (line_no + 1) { st with logfile_format := Dialect.PrimePower }
      else readLoop max_depth rest (line_no + 1) st
    else
      match processBody max_depth st line with
      | Except.error e => Except.error ⟨e, line_no, line⟩
      | Except.ok st' => readLoop max_depth rest (line_no + 1) st'

/-- The parser object: class power_hierarchy fields. -/
structure power_hierarchy where
  data : Tree
  power_num_count : Option Nat
  verbose : Bool
  max_depth : Option Nat
  path_combine : Bool
  logfile_format : Dialect

/-- power_hierarchy.__init__: empty data, power_num_count None, dialect
defaulted to Power Compiler. -/
def power_hierarchy.init (verbose : Bool) (max_depth : Option Nat)
    (path_combine : Bool) : power_hierarchy :=
  ⟨[], none, verbose, max_depth, path_combine, Dialect.PowerCompiler⟩

/-- power_hierarchy.read_logfile over the file's lines. -/
def read_logfile (ph : power_hierarchy) (lines : List String) :
    Except ParseErr power_hierarchy :=
  match readLoop ph.max_depth lines 0 ⟨false, ph.logfile_format, [], -1, ph.data⟩ with
  | Except.error e => Except.error e
  | Except.ok st =>
    Except.ok { ph with data := st.data, logfile_format := st.logfile_format }

/-! ## Projections -/

mutual

/-- power_hierarchy.iterate_data restricted to one key/value pair: a nested
dictionary contributes its rows with the key prepended; a one_power_group
contributes val.get_data() alone (the leaf's own key is dropped). -/
def iterNode (k : String) : Node → List (List Cell)
  | Node.interior m => (iterData m).map (fun row => Cell.str k :: row)
  | Node.leaf g => [g.get_data]

/-- power_hierarchy.iterate_data: one tuple per leaf, consisting of the
dictionary keys on the way down followed by the leaf's data tuple. -/
def iterData : Tree → List (List Cell)
  | [] => []
  | (k, v) :: rest => iterNode k v ++ iterData rest

end

/-- The string held by a hierarchy cell (hierarchy entries are always
strings when joined). -/
def cellToString : Cell → String
  | Cell.str s => s
  | _ => ""

/-- '.'.join over the hierarchy part of a row. -/
def joinDots (cells : List Cell) : String :=
  String.intercalate "." (cells.map cellToString)

/-- The padding branch of get_2d_hierarchy_data: splice None placeholders at
position -power_num_count, i.e. immediately before the power fields. -/
def padEntry (pnc maxH : Nat) (entry : List Cell) : List Cell :=
  entry.take (entry.length - pnc) ++
  List.replicate (maxH - entry.length) Cell.null ++
  entry.drop (entry.length - pnc)

/-- The path-combine branch: replace the hierarchy slice with its
dot-joined string. -/
def combineEntry (pnc : Nat) (entry : List Cell) : List Cell :=
  Cell.str (joinDots (entry.take (entry.length - pnc))) ::
  entry.drop (entry.length - pnc)

/-- power_hierarchy.get_2d_hierarchy_data: sets power_num_count from the
header, flattens, then pads (or dot-combines) every row.  max() of the empty
row list raises ValueError when no leaf was parsed. -/
def get_2d_hierarchy_data (ph : power_hierarchy) :
    Except PyErr (List (List Cell) × power_hierarchy) :=
  let pnc := (one_power_group.get_header ph.logfile_format).length
  let flat_data := iterData ph.data
  match flat_data with
  | [] => Except.error PyErr.valueError
  | _ :: _ =>
    let max_hier_entries := (flat_data.map List.length).foldl max 0
    let rows := flat_data.map (fun e =>
      if ph.path_combine then combineEntry pnc e else padEntry pnc max_hier_entries e)
    Except.ok (rows, { ph with power_num_count := some pnc })

/-! ## The filtered/aggregated projection -/

/-- The filter rewrite of get_filtered_dataframe: when re.search of the
pattern '\^*<top block>' finds nothing in the filter string (the starred
caret matches the empty string, so this is a containment test for the
literal '<top block>'), prepend the anchored literal prefix. -/
def filt_rewrite (s : String) : String :=
  if rsearchStr "\\^*<top block>" s then s else "^<top block>\\." ++ s

/-- Dot-combination of one flattened row inside get_filtered_dataframe:
len(row) minus self.power_num_count raises TypeError when power_num_count
still holds its initial None. -/
def dotRow (pnc? : Option Nat) (row : List Cell) : Except PyErr (List Cell) :=
  match pnc? with
  | none => Except.error PyErr.typeError
  | some n =>
    Except.ok (Cell.str (joinDots (row.take (row.length - n))) :: row.drop (row.length - n))

/-- The dot path of a combined row (its first element). -/
def entryKey (e : List Cell) : String := cellToString (e.headD Cell.null)

/-- The dot-combination loop over all flattened rows (the first raised
TypeError aborts the call). -/
def dotRowsE (pnc? : Option Nat) : List (List Cell) → Except PyErr (List (List Cell))
  | [] => Except.ok []
  | row :: rest =>
    match dotRow pnc? row with
    | Except.error e => Except.error e
    | Except.ok r =>
      match dotRowsE pnc? rest with
      | Except.error e => Except.error e
      | Except.ok rs => Except.ok (r :: rs)

/-- The filtering loop: keep a row when some filter matches its dot path
(first match wins, then next row), and record per filter string whether it
ever matched (the filters_used dictionary, keyed by pattern string). -/
def filterLoop (fl : List String) :
    List (List Cell) → List (List Cell) × (String → Bool)
  | [] => ([], fun _ => false)
  | e :: rest =>
    let pr := filterLoop fl rest
    match fl.find? (fun f => rsearchStr f (entryKey e)) with
    | some f => (e :: pr.1, fun x => x == f || pr.2 x)
    | none => pr

/-- The unused-filters message fragment accumulated by the assert loop. -/
def unusedFiltersStr (fl : List String) (used : String → Bool) : String :=
  fl.foldl (fun acc f => if used f then acc else acc ++ "\"" ++ f ++ "\", ") ""

/-- One row of the filtered dataframe: the dot-path index and the power
field cells. -/
abbrev DFRow := String × List Cell

/-- The numeric value of a sort-column cell. -/
def cellNum : Cell → Rat
  | Cell.num q => q
  | _ => 0

/-- Sort key: the cell of the chosen column. -/
def rowKey (colIdx : Nat) (r : DFRow) : Rat := cellNum (r.2.getD colIdx Cell.null)

/-- sort_values(plot_col, ascending=False): descending sort by the chosen
column. -/
def sortDesc (colIdx : Nat) (rows : List DFRow) : List DFRow :=
  rows.insertionSort (fun a b => rowKey colIdx a ≥ rowKey colIdx b)

/-- Cell addition as performed by the pandas column sum (numbers add,
strings concatenate). -/
def cellAdd : Cell → Cell → Cell
  | Cell.num a, Cell.num b => Cell.num (a + b)
  | Cell.str a, Cell.str b => Cell.str (a ++ b)
  | _, _ => Cell.null

/-- Column-wise sum of the rows to be collapsed. -/
def colSums : List (List Cell) → List Cell
  | [] => []
  | r :: rs => rs.foldl (fun acc row => List.zipWith cellAdd acc row) r

/-- The Other-bucket rollup of get_filtered_dataframe: when the sorted row
count exceeds max_entries, sum the rows past the max_entries-th into one
series, overwrite its Module Type Name with 'Other', drop those rows,
append the new row named 'Other', and re-sort for pie charts. -/
def capOther (plotIdx typeIdx max_entries : Nat) (graph_kind : String)
    (rows : List DFRow) : List DFRow :=
  if max_entries < rows.length then
    let other_cells :=
      (colSums ((rows.drop max_entries).map Prod.snd)).set typeIdx (Cell.str "Other")
    let res := rows.take max_entries ++ [("Other", other_cells)]
    if graph_kind = "pie" then sortDesc plotIdx res else res
  else rows

/-- power_hierarchy.get_filtered_dataframe.  The second component of the
result is the state of the caller's top_name list object after the call:
the source binds filt_str_list = top_name without copying and rewrites its
elements in place, so the caller's list holds the rewritten patterns (the
TypeError of the dot-combination loop fires before the rewrite loop, in
which case the list is untouched). -/
def get_filtered_dataframe (ph : power_hierarchy) (top_name : List String)
    (plot_col graph_kind : String) (max_entries : Nat) :
    Except PyErr (List DFRow) × List String :=
  match dotRowsE ph.power_num_count (iterData ph.data) with
  | Except.error e => (Except.error e, top_name)
  | Except.ok data_2d =>
    let filt_str_list := top_name.map filt_rewrite
    let header := one_power_group.get_header ph.logfile_format
    let fu := filterLoop filt_str_list data_2d
    let result : Except PyErr (List DFRow) :=
      if !(filt_str_list.all fu.2) then
        Except.error (PyErr.assertionError
          ("Filter(s) did not collect any data: " ++ unusedFiltersStr filt_str_list fu.2))
      else if fu.1.isEmpty then
        Except.error (PyErr.assertionError "No filtered data was collected. Check -gt argument")
      else
        match header.indexOf? plot_col with
        | none => Except.error PyErr.keyError
        | some plotIdx =>
          let dfRows : List DFRow := fu.1.map (fun e => (entryKey e, e.drop 1))
          let sorted := sortDesc plotIdx dfRows
          match header.indexOf? "Module Type Name" with
          | none => Except.error PyErr.keyError
          | some typeIdx =>
            Except.ok (capOther plotIdx typeIdx max_entries graph_kind sorted)
    (result, filt_str_list)

/-- Literal-character items, the parse of a metacharacter-free pattern. -/
def litTItems (L : List Char) : List TItem :=
  L.map (fun c => TItem.simple (SItem.lit c))

/-- The class of the escaped caret atom. -/
def caretCls : Char → Bool := fun c' => c' = '^'

/-- The parsed item sequence of the pattern \^*<top block> used by the
filter-rewrite guard of get_filtered_dataframe. -/
def topBlockItems : List TItem :=
  TItem.simple (SItem.star caretCls) :: litTItems ("<top block>".toList)

/-- The successful result of the dot-combination loop of
get_filtered_dataframe when power_num_count holds n. -/
def dotData (n : Nat) (t : Tree) : List (List Cell) :=
  (iterData t).map (fun row =>
    Cell.str (joinDots (row.take (row.length - n))) :: row.drop (row.length - n))

mutual

/-- Number of one_power_group leaves under a node. -/
def nodeLeafCount : Node → Nat
  | Node.interior m => leafCount m
  | Node.leaf _ => 1

/-- Number of one_power_group leaves in a tree. -/
def leafCount : Tree → Nat
  | [] => 0
  | (_, v) :: rest => nodeLeafCount v + leafCount rest

end

mutual

/-- Every leaf under the node carries the given dialect. -/
def nodeAllFmt (d : Dialect) : Node → Prop
  | Node.interior m => treeAllFmt d m
  | Node.leaf g => g.logfile_format = d

/-- Every leaf of the tree carries the given dialect (true of every tree
read_logfile builds, since the dialect is latched before the body). -/
def treeAllFmt (d : Dialect) : Tree → Prop
  | [] => True
  | (_, v) :: rest => nodeAllFmt d v ∧ treeAllFmt d rest

end

/-- max_hier_entries of get_2d_hierarchy_data: the maximum flattened row
length (hierarchy width plus field count). -/
def maxRowLen (t : Tree) : Nat :=
  ((iterData t).map List.length).foldl max 0

/-! ## Observables for the insertion-safety analysis -/

/-- Lookup of a nonempty key path in the nested dictionary (none when the
path is empty, runs off the tree, or crosses a leaf). -/
def lookupT : Tree → List String → Option Node
  | _, [] => none
  | t, [k] => alFind t k
  | t, k :: k2 :: ks =>
    match alFind t k with
    | some (Node.interior m) => lookupT m (k2 :: ks)
    | _ => none

/-- A path ending in an adjacent duplicate pair (the shape of every leaf
path stored by read_logfile: the stack followed by the instance name, which
equals the stack's last element). -/
def EndsDup (p : List String) : Prop := ∃ q x, p = q ++ [x, x]

/-- Node kinds survive: interior nodes stay interior and leaves stay
leaves at every path (values may change, kinds may not). -/
def kindPres (t t' : Tree) : Prop :=
  (∀ p m, lookupT t p = some (Node.interior m) →
    ∃ m', lookupT t' p = some (Node.interior m')) ∧
  (∀ p g, lookupT t p = some (Node.leaf g) →
    ∃ g', lookupT t' p = some (Node.leaf g'))

/-- A single insertion is safe: if it returns at all (rather than raising),
it swapped no node kind. -/
def InsertSafe (t : Tree) (path : List String) (inst : String)
    (g : one_power_group) : Prop :=
  ∀ t', walkInsert t path inst g = Except.ok t' → kindPres t t'

/-- Every insertion performed while folding the accepted records of a
read_logfile run is safe: at each step the stack update either raises, or
yields a path whose insertion either raises or preserves node kinds, and the
run continues from the updated state. -/
def SafeRun : LoopSt → List (Nat × String × one_power_group) → Prop
  | _, [] => True
  | st, (lvl, inst, g) :: rest =>
    (∀ stk', updStack st.hier_list st.prev_level lvl inst = Except.ok stk' →
      InsertSafe st.data stk' inst g) ∧
    (∀ st', stepRecord st lvl inst g = Except.ok st' → SafeRun st' rest)

/-- Every leaf of the tree sits at a path ending in an adjacent duplicate. -/
def InvLeaf (t : Tree) : Prop :=
  ∀ p g, lookupT t p = some (Node.leaf g) → EndsDup p

/-- No interior node sits at a path ending in an adjacent duplicate. -/
def InvInt (t : Tree) : Prop :=
  ∀ p m, lookupT t p = some (Node.interior m) → ¬ EndsDup p

/-- Every nonempty prefix of the stack has its self-named leaf stored. -/
def InvStack (t : Tree) (stk : List String) : Prop :=
  ∀ q x, (q ++ [x]) <+: stk → ∃ g, lookupT t (q ++ [x, x]) = some (Node.leaf g)

/-- The loop invariant of read_logfile relating tree and path stack. -/
def Inv (st : LoopSt) : Prop :=
  InvLeaf st.data ∧ InvInt st.data ∧ InvStack st.data st.hier_list

/-- The seek-phase section marker test of read_logfile. -/
def containsHierarchy (line : String) : Bool := rsearchStr "Hierarchy" line

/-- The seek-phase dialect marker test of read_logfile. -/
def containsGlitch (line : String) : Bool := rsearchStr "Glitch|X-tran" line

/-- The dialect a file latches: Prime Power exactly when some line strictly
before the first Hierarchy marker line carries a glitch/x-tran marker,
otherwise the Power Compiler default. -/
def latchDialect (lines : List String) : Dialect :=
  if (lines.takeWhile (fun l => !containsHierarchy l)).any containsGlitch
  then Dialect.PrimePower else Dialect.PowerCompiler

/-! ## Concrete sample inputs -/

/-- A parser object with default constructor arguments. -/
def phDefault : power_hierarchy := power_hierarchy.init false none false

/-- The dot paths of all leaves of a tree, as computed by the dot-combination
loop of get_filtered_dataframe with power_num_count set from the header. -/
def leafDotPaths (fmt : Dialect) (t : Tree) : List String :=
  (iterData t).map (fun row =>
    joinDots (row.take (row.length - (one_power_group.get_header fmt).length)))

/-- Hand-built indented Power Compiler report for the hierarchy
A -> (B -> leaf, C -> (D -> leaf)), records in pre-order, two spaces per
level (the trailing blank stands for the newline kept by Python's line
iteration). -/
def linesC6 : List String :=
  ["Hierarchy", "--------",
   "A (ta) 1.0 2.0 3.0 4.0 5.0 ",
   "  B (tb) 1.1 2.1 3.1 4.1 5.1 ",
   "  C (tc) 1.2 2.2 3.2 4.2 5.2 ",
   "    D (td) 1.3 2.3 3.3 4.3 5.3 "]

/-- A body line that is record-shaped (indent, name, parenthesized type,
field columns) but whose first numeric field is the malformed token abc. -/
def linesMalformedField : List String :=
  ["Hierarchy", "-", "  a (b) abc 1.0 2.0 3.0 4.0 "]

/-- A body line whose first numeric field 1.5e matches the lenient sci_num
pattern but is rejected by float(). -/
def linesBadFloat : List String :=
  ["Hierarchy", "-", "  a (b) 1.5e 2.0 3.0 4.0 5.0 "]

/-- A Power Compiler leaf record with percentage i, named after i. -/
def mkLeaf (i : Nat) : one_power_group :=
  ⟨Dialect.PowerCompiler, "c" ++ toString i, "t", 1, 1, 1, 1, (i : Rat), none, none⟩

/-- A tree with 25 leaves under one top instance, stored the way
read_logfile stores leaves (each leaf keyed by its own name inside its
node's dictionary). -/
def tree25 : Tree :=
  [("t", Node.interior ((List.range 25).map (fun i =>
    ("c" ++ toString i, Node.interior [("c" ++ toString i, Node.leaf (mkLeaf i))]))))]

/-- A parser object holding tree25 after the full flatten has set
power_num_count. -/
def phC1 : power_hierarchy :=
  ⟨tree25, some 6, false, none, false, Dialect.PowerCompiler⟩

/-- A two-depth Power Compiler tree for the flatten witness. -/
def phW : power_hierarchy :=
  ⟨[("A", Node.interior [("A", Node.leaf (mkLeaf 1)),
     ("B", Node.interior [("B", Node.leaf (mkLeaf 2))])])],
   none, false, none, false, Dialect.PowerCompiler⟩

/-- The concrete result of the full flatten on phW. -/
def get2dW : List (List Cell) × power_hierarchy :=
  match get_2d_hierarchy_data phW with
  | Except.ok p => p
  | Except.error _ => ([], phW)

/-- The parser object produced by parsing linesC6. -/
def readC6 : power_hierarchy :=
  match read_logfile phDefault linesC6 with
  | Except.ok p => p
  | Except.error _ => phDefault

/-! ## Claim theorems: concrete runs -/

/-- C6: reconstructing the hierarchy A -> (B, C -> D) from hand-built
indented text yields a tree whose leaf dot paths are exactly A, A.B, A.C and
A.C.D, so A.B and A.C.D are reachable as leaves at depths 1 and 2 (segment
counts 2 and 3). -/
theorem c6_roundtrip :
    (read_logfile phDefault linesC6).toOption.map
      (fun ph => leafDotPaths Dialect.PowerCompiler ph.data) =
      some ["A", "A.B", "A.C", "A.C.D"] ∧
    "A.B".toList.count '.' = 1 ∧ "A.C.D".toList.count '.' = 2 := by
  refine ⟨rfl, rfl, rfl⟩

/-- C2, counterexample: a record-shaped body line whose numeric field abc is
malformed does not abort the parse; the whole file parses successfully and
the line is merely skipped (the tree stays empty), contradicting the claim
that malformed numeric fields on record-shaped lines are fatal. -/
theorem c2_malformed_field_counterexample :
    (read_logfile phDefault linesMalformedField).toOption.map
      (fun ph => ph.data.isEmpty) = some true := by
  rfl

/-- C1, counterexample: with 25 filtered leaves and max_entries = 20 the
filtered/aggregated projection returns 21 rows, not 20: the first 20 sorted
rows are kept and the synthetic Other row is appended on top of them. -/
theorem c1_other_rollup_counterexample :
    ((get_filtered_dataframe phC1 ["<top block>|c"] "Pct of Total Power"
        "barh" 20).1).toOption.map List.length = some 21 := by
  rfl

/-- C3, counterexample: the pattern B$ against a tree rooted at A is not
rewritten to the root-anchored ^A\.B$ claimed by the spec; the source
prepends the hard-coded literal ^<top block>\. instead. -/
theorem c3_filter_anchor_counterexample :
    filt_rewrite "B$" = "^<top block>\\.B$" ∧
    "^<top block>\\.B$" ≠ "^A\\.B$" := by
  constructor
  · rfl
  · decide

/-! ## Helper lemmas -/

theorem str_toList_append (a b : String) : (a ++ b).toList = a.toList ++ b.toList := by
  cases a
  cases b
  rfl

theorem dotRowsE_none (l : List (List Cell)) (h : l ≠ []) :
    dotRowsE none l = Except.error PyErr.typeError := by
  cases l with
  | nil => exact absurd rfl h
  | cons a l => rfl

theorem dotRowsE_some (n : Nat) (l : List (List Cell)) :
    dotRowsE (some n) l = Except.ok (l.map (fun row =>
      Cell.str (joinDots (row.take (row.length - n))) :: row.drop (row.length - n))) := by
  induction l with
  | nil => rfl
  | cons a l ih => simp [dotRowsE, dotRow, ih]

theorem dotRowsE_dotData (n : Nat) (t : Tree) :
    dotRowsE (some n) (iterData t) = Except.ok (dotData n t) :=
  dotRowsE_some n (iterData t)

theorem filterLoop_nil (rows : List (List Cell)) :
    filterLoop ([] : List String) rows = ([], fun _ => false) := by
  induction rows with
  | nil => rfl
  | cons e rest ih => simpa [filterLoop] using ih

theorem filterLoop_unused (fl : List String) (rows : List (List Cell)) (f : String)
    (h : ∀ e ∈ rows, rsearchStr f (entryKey e) = false) :
    (filterLoop fl rows).2 f = false := by
  induction rows with
  | nil => rfl
  | cons e rest ih =>
    have hrest := ih (fun x hx => h x (List.mem_cons_of_mem _ hx))
    have he := h e (List.mem_cons_self _ _)
    simp only [filterLoop]
    cases hfind : fl.find? (fun g => rsearchStr g (entryKey e)) with
    | none => simpa using hrest
    | some g =>
      have hg : rsearchStr g (entryKey e) = true := by
        simpa using List.find?_some hfind
      have hne : (f == g) = false := by
        cases hbe : f == g
        · rfl
        · have hfg : f = g := beq_iff_eq.mp hbe
          rw [hfg, hg] at he
          cases he
      simp [hne, hrest]

theorem unusedStr_suffix_any (used : String → Bool) (fl : List String) :
    ∀ acc : String, ∃ suf,
      (fl.foldl (fun a g => if used g then a else a ++ "\"" ++ g ++ "\", ") acc).toList
        = acc.toList ++ suf := by
  induction fl with
  | nil => exact fun acc => ⟨[], by simp⟩
  | cons g fl ih =>
    intro acc
    simp only [List.foldl_cons]
    by_cases hg : used g
    · simpa [hg] using ih acc
    · obtain ⟨suf, hsuf⟩ := ih (acc ++ "\"" ++ g ++ "\", ")
      rw [if_neg hg]
      refine ⟨"\"".toList ++ g.toList ++ "\", ".toList ++ suf, ?_⟩
      rw [hsuf]
      simp [str_toList_append, List.append_assoc]

theorem unusedStr_infix (fl : List String) (used : String → Bool) (f : String)
    (hf : f ∈ fl) (hu : used f = false) :
    ∃ l r, (unusedFiltersStr fl used).toList = l ++ f.toList ++ r := by
  have main : ∀ (fl : List String) (acc : String), f ∈ fl →
      ∃ l r, (fl.foldl (fun a g => if used g then a else a ++ "\"" ++ g ++ "\", ") acc).toList
        = l ++ f.toList ++ r := by
    intro fl
    induction fl with
    | nil => intro acc hmem; exact absurd hmem (List.not_mem_nil f)
    | cons g fl ih =>
      intro acc hmem
      simp only [List.foldl_cons]
      rcases List.mem_cons.mp hmem with heq | htail
      · subst heq
        obtain ⟨suf, hsuf⟩ := unusedStr_suffix_any used fl (acc ++ "\"" ++ f ++ "\", ")
        rw [if_neg (by simp [hu])]
        refine ⟨acc.toList ++ "\"".toList, "\", ".toList ++ suf, ?_⟩
        rw [hsuf]
        simp [str_toList_append, List.append_assoc]
      · exact ih _ htail
  exact main fl "" hf

/-! ## Claim theorems: C9, C10, C8, C2 -/

/-- C9: power_num_count is initialized to None by the constructor, is not
assigned by read_logfile, and a get_filtered_dataframe call on a state whose
power_num_count is still None with at least one parsed leaf computes
len(row) - None and raises TypeError: the filtered projection has the
undocumented precondition that get_2d_hierarchy_data ran first. -/
theorem c9_power_num_count_trap :
    (∀ v md pc, (power_hierarchy.init v md pc).power_num_count = none) ∧
    (∀ ph lines ph', read_logfile ph lines = Except.ok ph' →
      ph'.power_num_count = ph.power_num_count) ∧
    (∀ (ph : power_hierarchy) top plot kind maxE,
      ph.power_num_count = none → iterData ph.data ≠ [] →
      (get_filtered_dataframe ph top plot kind maxE).1 =
        Except.error PyErr.typeError) := by
  refine ⟨fun v md pc => rfl, ?_, ?_⟩
  · intro ph lines ph' h
    unfold read_logfile at h
    cases hr : readLoop ph.max_depth lines 0 ⟨false, ph.logfile_format, [], -1, ph.data⟩ with
    | error e => rw [hr] at h; exact absurd h (by simp)
    | ok st => rw [hr] at h; cases h; rfl
  · intro ph top plot kind maxE hpnc hne
    unfold get_filtered_dataframe
    rw [hpnc, dotRowsE_none _ hne]

/-- C9 witness: a concrete freshly-built state with one leaf and
power_num_count still None yields TypeError. -/
theorem c9_power_num_count_trap_witness :
    (get_filtered_dataframe
      ⟨[("A", Node.leaf (mkLeaf 0))], none, false, none, false, Dialect.PowerCompiler⟩
      ["x"] "Pct of Total Power" "pie" 20).1 = Except.error PyErr.typeError :=
  c9_power_num_count_trap.2.2 _ ["x"] _ _ 20 rfl (by decide)

/-- C10: get_filtered_dataframe binds filt_str_list = top_name without
copying and rewrites the elements in place, so after any call that reaches
the rewrite loop (power_num_count set) the caller's list object holds the
rewritten patterns: every element lacking the top-block marker has been
replaced by the prefixed pattern, which differs from the original. -/
theorem c10_filter_list_mutation :
    ∀ (ph : power_hierarchy) top plot kind maxE n,
      ph.power_num_count = some n →
      (get_filtered_dataframe ph top plot kind maxE).2 = top.map filt_rewrite ∧
      (∀ s : String, rsearchStr "\\^*<top block>" s = false →
        filt_rewrite s = "^<top block>\\." ++ s ∧ filt_rewrite s ≠ s) := by
  intro ph top plot kind maxE n hpnc
  constructor
  · unfold get_filtered_dataframe
    rw [hpnc, dotRowsE_dotData]
  · intro s hs
    have hrw : filt_rewrite s = "^<top block>\\." ++ s := by
      unfold filt_rewrite
      rw [hs]
      simp
    refine ⟨hrw, ?_⟩
    rw [hrw]
    intro hcontra
    have hlen := congrArg String.length hcontra
    rw [String.length_append] at hlen
    have hp : ("^<top block>\\." : String).length = 14 := rfl
    omega

/-- C10 witness: a concrete call whose pattern list is rewritten in place. -/
theorem c10_filter_list_mutation_witness :
    (get_filtered_dataframe phC1 ["B$"] "Pct of Total Power" "pie" 20).2 =
      ["^<top block>\\.B$"] ∧
    filt_rewrite "B$" ≠ "B$" := by
  have h := c10_filter_list_mutation phC1 ["B$"] "Pct of Total Power" "pie" 20 6 rfl
  exact ⟨h.1.trans (by rfl), (h.2 "B$" (by rfl)).2⟩

/-- C8: if a supplied filter pattern (after the rewrite) matches no dot
path, get_filtered_dataframe fails with an AssertionError whose message
names that pattern; and with an empty pattern list the overall-empty check
fails with the no-filtered-data AssertionError; neither case returns an
empty table or hits a null dereference. -/
theorem c8_unused_filter_error :
    (∀ (ph : power_hierarchy) (top : List String) plot kind maxE n s,
      ph.power_num_count = some n →
      s ∈ top →
      (∀ e ∈ dotData n ph.data, rsearchStr (filt_rewrite s) (entryKey e) = false) →
      ∃ msg, (get_filtered_dataframe ph top plot kind maxE).1 =
        Except.error (PyErr.assertionError msg) ∧
        ∃ l r, msg.toList = l ++ (filt_rewrite s).toList ++ r) ∧
    (∀ (ph : power_hierarchy) plot kind maxE n,
      ph.power_num_count = some n →
      (get_filtered_dataframe ph ([] : List String) plot kind maxE).1 =
        Except.error (PyErr.assertionError
          "No filtered data was collected. Check -gt argument")) := by
  constructor
  · intro ph top plot kind maxE n s hpnc hmem hnomatch
    have hfmem : filt_rewrite s ∈ top.map filt_rewrite := List.mem_map_of_mem _ hmem
    have hunused : (filterLoop (top.map filt_rewrite) (dotData n ph.data)).2 (filt_rewrite s) = false :=
      filterLoop_unused _ _ _ hnomatch
    have hall : (top.map filt_rewrite).all
        (filterLoop (top.map filt_rewrite) (dotData n ph.data)).2 = false := by
      rcases hv : (top.map filt_rewrite).all
          (filterLoop (top.map filt_rewrite) (dotData n ph.data)).2 with _ | _
      · rfl
      · exact absurd (List.all_eq_true.mp hv _ hfmem) (by simp [hunused])
    refine ⟨"Filter(s) did not collect any data: " ++
      unusedFiltersStr (top.map filt_rewrite)
        (filterLoop (top.map filt_rewrite) (dotData n ph.data)).2, ?_, ?_⟩
    · unfold get_filtered_dataframe
      rw [hpnc, dotRowsE_dotData]
      simp only [hall]
      rfl
    · obtain ⟨l, r, hlr⟩ := unusedStr_infix _ _ _ hfmem hunused
      refine ⟨"Filter(s) did not collect any data: ".toList ++ l, r, ?_⟩
      rw [str_toList_append, hlr]
      simp [List.append_assoc]
  · intro ph plot kind maxE n hpnc
    unfold get_filtered_dataframe
    rw [hpnc, dotRowsE_dotData]
    simp only [List.map_nil, filterLoop_nil]
    rfl

/-- C8 witness: a concrete pattern that matches nothing produces the
AssertionError naming it. -/
theorem c8_unused_filter_error_witness :
    ∃ msg, (get_filtered_dataframe phC1 ["<top block>zz"] "Pct of Total Power"
      "barh" 20).1 = Except.error (PyErr.assertionError msg) ∧
      ∃ l r, msg.toList = l ++ (filt_rewrite "<top block>zz").toList ++ r :=
  c8_unused_filter_error.1 phC1 ["<top block>zz"] "Pct of Total Power" "barh" 20 6
    "<top block>zz" rfl (List.mem_singleton.mpr rfl) (by decide)

/-- C2, amended: a body line whose captured numeric field matches sci_num
but is rejected by float() aborts the parse fatally with the line number and
line text (the ValueError of the float conversion propagates through the
reporting except block), while lines failing the record regex are skipped
non-fatally. -/
theorem c2_malformed_field_amended :
    ∀ (line : String) caps,
      recordSearch pcItems line = some caps →
      pyFloatQ? (capGet caps 4) = none →
      read_logfile phDefault ["Hierarchy", "-", line] =
        Except.error ⟨PyErr.valueError, 1, line⟩ := by
  intro line caps h1 h2
  have hH : rsearchStr "Hierarchy" "Hierarchy" = true := rfl
  unfold read_logfile
  simp only [readLoop, hH, if_true, phDefault, power_hierarchy.init]
  simp only [processBody, h1, toFloat, h2, Except.bind]
  rfl

/-- C2 amended witness: the concrete bad-float line aborts with ValueError
at body line 1. -/
theorem c2_malformed_field_amended_witness :
    read_logfile phDefault linesBadFloat =
      Except.error ⟨PyErr.valueError, 1, "  a (b) 1.5e 2.0 3.0 4.0 5.0 "⟩ :=
  c2_malformed_field_amended "  a (b) 1.5e 2.0 3.0 4.0 5.0 " _ rfl rfl

/-! ## C1 amended: the Other-bucket rollup -/

theorem sortDesc_perm (colIdx : Nat) (rows : List DFRow) :
    List.Perm (sortDesc colIdx rows) rows :=
  List.perm_insertionSort _ rows

theorem sortDesc_length (colIdx : Nat) (rows : List DFRow) :
    (sortDesc colIdx rows).length = rows.length :=
  (sortDesc_perm colIdx rows).length_eq

theorem sortDesc_mem {r : DFRow} (colIdx : Nat) (rows : List DFRow)
    (h : r ∈ rows) : r ∈ sortDesc colIdx rows :=
  ((sortDesc_perm colIdx rows).mem_iff).mpr h

/-- C1, amended: when the sorted filtered row count exceeds max_entries, the
rollup step applied by get_filtered_dataframe (capOther) returns exactly
max_entries + 1 rows, among them the synthetic row indexed 'Other' whose
cells are the column-wise sum of the cut rows with the Module Type Name
column overwritten by the literal 'Other' (the pie-chart re-sort permutes
but does not change the rows). -/
theorem c1_other_rollup_amended :
    ∀ (rows : List DFRow) (plotIdx typeIdx maxE : Nat) (kind : String),
      maxE < rows.length →
      (capOther plotIdx typeIdx maxE kind rows).length = maxE + 1 ∧
      ("Other", (colSums ((rows.drop maxE).map Prod.snd)).set typeIdx (Cell.str "Other"))
        ∈ capOther plotIdx typeIdx maxE kind rows := by
  intro rows plotIdx typeIdx maxE kind h
  unfold capOther
  rw [if_pos h]
  have hlen : (rows.take maxE ++
      [("Other", (colSums ((rows.drop maxE).map Prod.snd)).set typeIdx (Cell.str "Other"))]).length
      = maxE + 1 := by
    rw [List.length_append, List.length_take]
    simp [Nat.min_eq_left (Nat.le_of_lt h)]
  have hmem : ("Other", (colSums ((rows.drop maxE).map Prod.snd)).set typeIdx (Cell.str "Other"))
      ∈ rows.take maxE ++
        [("Other", (colSums ((rows.drop maxE).map Prod.snd)).set typeIdx (Cell.str "Other"))] :=
    List.mem_append_right _ (List.mem_singleton.mpr rfl)
  by_cases hk : kind = "pie"
  · rw [if_pos hk]
    exact ⟨(sortDesc_length _ _).trans hlen, sortDesc_mem _ _ hmem⟩
  · rw [if_neg hk]
    exact ⟨hlen, hmem⟩

/-! ## C3 amended: the rewrite guard is a containment test -/

theorem orElse_isSome (a b : Option α) : (a <|> b).isSome = (a.isSome || b.isSome) := by
  cases a <;> rfl

theorem matchTop_lits (L : List Char) :
    ∀ (s : List Char) (caps : List (Nat × List Char))
      (k : List Char → List (Nat × List Char) → Option (List (Nat × List Char))),
      matchTop (litTItems L) s caps k =
        if L.isPrefixOf s then k (s.drop L.length) caps else none := by
  induction L with
  | nil => intro s caps k; simp [litTItems, matchTop, List.isPrefixOf]
  | cons c L ih =>
    intro s caps k
    cases s with
    | nil => simp [litTItems, matchTop, matchSimple, List.isPrefixOf]
    | cons c' t =>
      simp only [litTItems, List.map_cons, matchTop, matchSimple]
      by_cases hc : c' = c
      · subst hc
        rw [if_pos rfl]
        show matchTop (litTItems L) t caps k = _
        rw [ih t caps k]
        simp [List.isPrefixOf]
      · rw [if_neg hc]
        have : (c == c') = false := by
          cases hbe : c == c'
          · rfl
          · exact absurd (beq_iff_eq.mp hbe).symm hc
        simp [List.isPrefixOf, this]

theorem tryDrops_isSome (k : List Char → Option (List (Nat × List Char)))
    (s : List Char) :
    ∀ n, (tryDrops k s n).isSome = true ↔
      ∃ i, i ≤ n ∧ (k (s.drop i)).isSome = true := by
  intro n
  induction n with
  | zero =>
    simp only [tryDrops]
    constructor
    · intro h; exact ⟨0, Nat.le_refl 0, by simpa using h⟩
    · rintro ⟨i, hi, h⟩
      have : i = 0 := Nat.le_zero.mp hi
      subst this; simpa using h
  | succ n ih =>
    simp only [tryDrops, orElse_isSome, Bool.or_eq_true, ih]
    constructor
    · rintro (h | ⟨i, hi, h⟩)
      · exact ⟨n + 1, Nat.le_refl _, h⟩
      · exact ⟨i, Nat.le_succ_of_le hi, h⟩
    · rintro ⟨i, hi, h⟩
      rcases Nat.lt_or_ge i (n + 1) with hlt | hge
      · exact Or.inr ⟨i, Nat.lt_succ_iff.mp hlt, h⟩
      · have : i = n + 1 := Nat.le_antisymm hi hge
        subst this; exact Or.inl h

theorem searchFrom_isSome (items : List TItem) :
    ∀ s : List Char, (searchFrom items s).isSome = true ↔
      ∃ j, (matchTop items (s.drop j) [] (fun _ caps => some caps)).isSome = true := by
  intro s
  induction s with
  | nil =>
    simp only [searchFrom]
    constructor
    · intro h; exact ⟨0, h⟩
    · rintro ⟨j, h⟩; simpa [List.drop_nil] using h
  | cons c t ih =>
    simp only [searchFrom, orElse_isSome, Bool.or_eq_true, ih]
    constructor
    · rintro (h | ⟨j, h⟩)
      · exact ⟨0, h⟩
      · exact ⟨j + 1, by simpa using h⟩
    · rintro ⟨j, h⟩
      cases j with
      | zero => exact Or.inl (by simpa using h)
      | succ j => exact Or.inr ⟨j, by simpa using h⟩

theorem matchTop_star_lits (L : List Char) (f : Char → Bool) (s : List Char) :
    (matchTop (TItem.simple (SItem.star f) :: litTItems L) s []
        (fun _ caps => some caps)).isSome = true ↔
      ∃ i, i ≤ charRun f s ∧ L.isPrefixOf (s.drop i) = true := by
  show (matchSimple [SItem.star f] s
      (fun s' => matchTop (litTItems L) s' [] (fun _ caps => some caps))).isSome = true ↔ _
  simp only [matchSimple]
  rw [tryDrops_isSome]
  constructor
  · rintro ⟨i, hi, h⟩
    rw [matchTop_lits] at h
    refine ⟨i, hi, ?_⟩
    by_cases hp : L.isPrefixOf (s.drop i)
    · exact hp
    · rw [if_neg hp] at h; simp at h
  · rintro ⟨i, hi, h⟩
    refine ⟨i, hi, ?_⟩
    rw [matchTop_lits, if_pos h]
    rfl

theorem infix_iff_drop (L s : List Char) : L <:+: s ↔ ∃ m, L <+: s.drop m := by
  constructor
  · rintro ⟨pre, suf, rfl⟩
    refine ⟨pre.length, ?_⟩
    rw [List.append_assoc, List.drop_left]
    exact ⟨suf, rfl⟩
  · rintro ⟨m, hpre⟩
    exact hpre.isInfix.trans (List.drop_suffix m s).isInfix

theorem rsearch_topblock_unfold (s : String) :
    rsearchStr "\\^*<top block>" s =
      ((searchFrom topBlockItems s.toList).isSome || false) := rfl

theorem rsearch_topblock_iff (s : String) :
    rsearchStr "\\^*<top block>" s = true ↔ "<top block>".toList <:+: s.toList := by
  rw [rsearch_topblock_unfold, Bool.or_false, searchFrom_isSome]
  constructor
  · rintro ⟨j, hj⟩
    rw [show topBlockItems = TItem.simple (SItem.star caretCls) ::
        litTItems ("<top block>".toList) from rfl] at hj
    rw [matchTop_star_lits] at hj
    obtain ⟨i, _, hpre⟩ := hj
    rw [List.drop_drop] at hpre
    exact (infix_iff_drop _ _).mpr ⟨j + i, List.isPrefixOf_iff_prefix.mp hpre⟩
  · intro hinf
    obtain ⟨m, hpre⟩ := (infix_iff_drop _ _).mp hinf
    refine ⟨m, ?_⟩
    rw [show topBlockItems = TItem.simple (SItem.star caretCls) ::
        litTItems ("<top block>".toList) from rfl]
    rw [matchTop_star_lits]
    exact ⟨0, Nat.zero_le _, by simpa using List.isPrefixOf_iff_prefix.mpr hpre⟩

/-- C3, amended: every caller-supplied filter pattern is left unchanged when
it contains the literal marker <top block> anywhere (the guard re.search of
\^*<top block> is a containment test, since the starred caret matches the
empty string), and otherwise is prepended with the hard-coded literal
^<top block>\. (not a prefix built from the tree's root); the rewritten
pattern ^<top block>\.B$ matches the dot path <top block>.B and not
<top block>.BB. -/
theorem c3_filter_anchor_amended :
    (∀ s : String,
      ("<top block>".toList <:+: s.toList → filt_rewrite s = s) ∧
      (¬ "<top block>".toList <:+: s.toList →
        filt_rewrite s = "^<top block>\\." ++ s)) ∧
    rsearchStr (filt_rewrite "B$") "<top block>.B" = true ∧
    rsearchStr (filt_rewrite "B$") "<top block>.BB" = false := by
  refine ⟨fun s => ⟨?_, ?_⟩, rfl, rfl⟩
  · intro hinf
    unfold filt_rewrite
    rw [if_pos ((rsearch_topblock_iff s).mpr hinf)]
  · intro hninf
    unfold filt_rewrite
    rw [if_neg ?_]
    intro hcontra
    exact hninf ((rsearch_topblock_iff s).mp hcontra)

/-- C3 amended witness: the pattern B$ lacks the marker and is rewritten to
the literal-prefixed pattern. -/
theorem c3_filter_anchor_amended_witness :
    filt_rewrite "B$" = "^<top block>\\." ++ "B$" :=
  (c3_filter_anchor_amended.1 "B$").2 (by decide)

/-- C1 amended witness: three rows capped at one entry yield two rows with
the summed Other row present. -/
theorem c1_other_rollup_amended_witness :
    (capOther 0 0 1 "pie"
      [("a", [Cell.num 3]), ("b", [Cell.num 2]), ("c", [Cell.num 1])]).length = 1 + 1 ∧
    ("Other", (colSums (([("a", [Cell.num 3]), ("b", [Cell.num 2]),
        ("c", [Cell.num 1])].drop 1).map Prod.snd)).set 0 (Cell.str "Other"))
      ∈ capOther 0 0 1 "pie"
        [("a", [Cell.num 3]), ("b", [Cell.num 2]), ("c", [Cell.num 1])] :=
  c1_other_rollup_amended
    [("a", [Cell.num 3]), ("b", [Cell.num 2]), ("c", [Cell.num 1])] 0 0 1 "pie"
    (by decide)

/-! ## C7: shape of the full flatten -/

theorem foldl_max_init_le : ∀ (l : List Nat) (a : Nat), a ≤ l.foldl max a := by
  intro l
  induction l with
  | nil => intro a; exact Nat.le_refl a
  | cons x l ih =>
    intro a
    exact Nat.le_trans (Nat.le_max_left a x) (ih (max a x))

theorem mem_le_foldl_max : ∀ (l : List Nat) (a x : Nat), x ∈ l → x ≤ l.foldl max a := by
  intro l
  induction l with
  | nil => intro a x hx; exact absurd hx (List.not_mem_nil x)
  | cons y l ih =>
    intro a x hx
    rcases List.mem_cons.mp hx with rfl | hmem
    · exact Nat.le_trans (Nat.le_max_right a x) (foldl_max_init_le l (max a x))
    · exact ih (max a y) x hmem

mutual

theorem iterNode_length : ∀ (k : String) (v : Node),
    (iterNode k v).length = nodeLeafCount v
  | k, Node.interior m => by
    simp [iterNode, nodeLeafCount, iterData_length m]
  | _, Node.leaf g => by
    simp [iterNode, nodeLeafCount]

theorem iterData_length : ∀ t : Tree, (iterData t).length = leafCount t
  | [] => by simp [iterData, leafCount]
  | (k, v) :: rest => by
    simp [iterData, leafCount, iterNode_length k v, iterData_length rest]

end

mutual

theorem iterNode_shape : ∀ (d : Dialect) (k : String) (v : Node),
    nodeAllFmt d v → ∀ e ∈ iterNode k v,
      ∃ (path : List String) (g : one_power_group), g.logfile_format = d ∧
        e = path.map Cell.str ++ one_power_group.get_data g
  | d, k, Node.interior m, hfmt, e, he => by
    simp only [iterNode, List.mem_map] at he
    obtain ⟨row, hrow, rfl⟩ := he
    obtain ⟨path, g, hg, rfl⟩ := iterData_shape d m hfmt row hrow
    exact ⟨k :: path, g, hg, by simp⟩
  | d, k, Node.leaf g, hfmt, e, he => by
    simp only [iterNode, List.mem_singleton] at he
    exact ⟨[], g, hfmt, by simpa using he⟩

theorem iterData_shape : ∀ (d : Dialect) (t : Tree),
    treeAllFmt d t → ∀ e ∈ iterData t,
      ∃ (path : List String) (g : one_power_group), g.logfile_format = d ∧
        e = path.map Cell.str ++ one_power_group.get_data g
  | _, [], _, e, he => by simp [iterData] at he
  | d, (k, v) :: rest, hfmt, e, he => by
    rcases List.mem_append.mp (by simpa [iterData] using he) with h | h
    · exact iterNode_shape d k v hfmt.1 e h
    · exact iterData_shape d rest hfmt.2 e h

end

theorem get_data_length (g : one_power_group) (d : Dialect)
    (h : g.logfile_format = d) :
    (one_power_group.get_data g).length = (one_power_group.get_header d).length := by
  cases d <;> simp [one_power_group.get_data, one_power_group.get_header, h]

theorem padEntry_length (pnc maxH : Nat) (e : List Cell) (h : e.length ≤ maxH) :
    (padEntry pnc maxH e).length = maxH := by
  simp only [padEntry, List.length_append, List.length_take, List.length_replicate,
    List.length_drop]
  omega

theorem padEntry_split (pnc maxH : Nat) (path : List Cell) (fields : List Cell)
    (hf : fields.length = pnc) :
    padEntry pnc maxH (path ++ fields) =
      path ++ List.replicate (maxH - (path.length + pnc)) Cell.null ++ fields := by
  have hlen : (path ++ fields).length - pnc = path.length := by
    simp [List.length_append, hf]
  simp only [padEntry, hlen]
  rw [List.take_left' rfl, List.drop_left' rfl]
  simp [List.length_append, hf]

/-- C7: for every tree whose leaves all carry the parser's dialect, the full
flatten (path-combine off) produces one row per leaf, every row has length
maxRowLen (the maximum observed hierarchy width plus the dialect's field
count), and each row is its hierarchy cells, then the null padding, then the
untouched power fields: padding abuts the numeric columns, never following
them or splitting the named segments. -/
theorem c7_flatten_shape :
    ∀ (ph : power_hierarchy) (rows : List (List Cell)) (ph' : power_hierarchy),
      ph.path_combine = false →
      treeAllFmt ph.logfile_format ph.data →
      get_2d_hierarchy_data ph = Except.ok (rows, ph') →
      rows.length = leafCount ph.data ∧
      (∀ r ∈ rows, r.length = maxRowLen ph.data) ∧
      (∀ r ∈ rows, ∃ (path : List String) (g : one_power_group),
        g.logfile_format = ph.logfile_format ∧
        r = path.map Cell.str ++
            List.replicate (maxRowLen ph.data -
              (path.length + (one_power_group.get_header ph.logfile_format).length))
              Cell.null ++
            one_power_group.get_data g) := by
  intro ph rows ph' hpc hfmt hok
  unfold get_2d_hierarchy_data at hok
  cases hflat : iterData ph.data with
  | nil => rw [hflat] at hok; exact absurd hok (by simp)
  | cons e0 flat0 =>
    rw [hflat] at hok
    simp only [hpc, Bool.false_eq_true, if_false] at hok
    have hrows : rows = (e0 :: flat0).map
        (padEntry (one_power_group.get_header ph.logfile_format).length
          (((e0 :: flat0).map List.length).foldl max 0)) := by
      cases hok; rfl
    have hmax : ((e0 :: flat0).map List.length).foldl max 0 = maxRowLen ph.data := by
      rw [maxRowLen, hflat]
    refine ⟨?_, ?_, ?_⟩
    · rw [hrows, List.length_map, ← iterData_length, hflat]
    · intro r hr
      rw [hrows] at hr
      obtain ⟨e, he, rfl⟩ := List.mem_map.mp hr
      rw [hmax]
      refine padEntry_length _ _ _ ?_
      rw [← hmax]
      exact mem_le_foldl_max _ 0 _ (List.mem_map_of_mem _ he)
    · intro r hr
      rw [hrows] at hr
      obtain ⟨e, he, rfl⟩ := List.mem_map.mp hr
      have hemem : e ∈ iterData ph.data := by rw [hflat]; exact he
      obtain ⟨path, g, hg, rfl⟩ := iterData_shape _ _ hfmt e hemem
      refine ⟨path, g, hg, ?_⟩
      rw [hmax, padEntry_split _ _ _ _ (get_data_length g _ hg)]
      simp [List.length_map]

/-- C7 witness: the two-depth concrete tree flattens to one row per leaf
with uniform padded width. -/
theorem c7_flatten_shape_witness :
    get2dW.1.length = leafCount phW.data ∧
    (∀ r ∈ get2dW.1, r.length = maxRowLen phW.data) ∧
    (∀ r ∈ get2dW.1, ∃ (path : List String) (g : one_power_group),
      g.logfile_format = phW.logfile_format ∧
      r = path.map Cell.str ++
          List.replicate (maxRowLen phW.data -
            (path.length + (one_power_group.get_header phW.logfile_format).length))
            Cell.null ++
          one_power_group.get_data g) :=
  c7_flatten_shape phW get2dW.1 get2dW.2 rfl
    (by simp [treeAllFmt, nodeAllFmt, phW, mkLeaf]) rfl

/-! ## C5: dialect latching -/

theorem stepRecord_fields (st : LoopSt) (level : Nat) (inst : String)
    (g : one_power_group) (st₂ : LoopSt)
    (h : stepRecord st level inst g = Except.ok st₂) :
    st₂.logfile_format = st.logfile_format ∧
    st₂.look_for_power_nums = st.look_for_power_nums := by
  unfold stepRecord at h
  split at h
  · exact absurd h (by simp)
  · split at h
    · exact absurd h (by simp)
    · cases h; exact ⟨rfl, rfl⟩

theorem processBody_fields (md : Option Nat) (st : LoopSt) (line : String)
    (st₂ : LoopSt) (h : processBody md st line = Except.ok st₂) :
    st₂.logfile_format = st.logfile_format ∧
    st₂.look_for_power_nums = st.look_for_power_nums := by
  unfold processBody at h
  split at h
  all_goals split at h
  all_goals repeat' split at h
  all_goals first
    | (cases h; exact ⟨rfl, rfl⟩)
    | (simp at h)
    | exact stepRecord_fields _ _ _ _ _ h

theorem readLoop_body_fmt : ∀ (md : Option Nat) (lines : List String) (n : Nat)
    (st st' : LoopSt),
    st.look_for_power_nums = true →
    readLoop md lines n st = Except.ok st' →
    st'.logfile_format = st.logfile_format := by
  intro md lines
  induction lines with
  | nil =>
    intro n st st' _ hok
    unfold readLoop at hok
    cases hok; rfl
  | cons line rest ih =>
    intro n st st' hlook hok
    unfold readLoop at hok
    rw [hlook] at hok
    simp only [Bool.true_eq_false, if_false] at hok
    cases hpb : processBody md st line with
    | error e => rw [hpb] at hok; exact absurd hok (by simp)
    | ok st₂ =>
      rw [hpb] at hok
      obtain ⟨hfmt, hlk⟩ := processBody_fields md st line st₂ hpb
      rw [← hfmt]
      exact ih (n + 1) st₂ st' (hlk.trans hlook) hok

theorem readLoop_seek_fmt : ∀ (md : Option Nat) (lines : List String) (n : Nat)
    (st st' : LoopSt),
    st.look_for_power_nums = false →
    readLoop md lines n st = Except.ok st' →
    st'.logfile_format =
      if (lines.takeWhile (fun l => !containsHierarchy l)).any containsGlitch
      then Dialect.PrimePower else st.logfile_format := by
  intro md lines
  induction lines with
  | nil =>
    intro n st st' _ hok
    unfold readLoop at hok
    cases hok
    simp
  | cons line rest ih =>
    intro n st st' hlook hok
    unfold readLoop at hok
    rw [hlook] at hok
    simp only [if_true] at hok
    by_cases hH : rsearchStr "Hierarchy" line = true
    · rw [if_pos hH] at hok
      cases rest with
      | nil => exact absurd hok (by simp)
      | cons l2 rest' =>
        have hfmt := readLoop_body_fmt md rest' (n + 1)
          { st with look_for_power_nums := true } st' rfl hok
        have hHc : containsHierarchy line = true := hH
        simp [List.takeWhile_cons, hHc, hfmt]
    · rw [if_neg hH] at hok
      have hHc : containsHierarchy line = false := by
        cases hv : containsHierarchy line
        · rfl
        · exact absurd hv hH
      by_cases hG : rsearchStr "Glitch|X-tran" line = true
      · rw [if_pos hG] at hok
        have := ih (n + 1) _ st' rfl hok
        have hGc : containsGlitch line = true := hG
        simp only [List.takeWhile_cons, hHc, Bool.not_false, if_true, List.any_cons, hGc,
          Bool.true_or] at this ⊢
        rw [this]
        split <;> rfl
      · rw [if_neg hG] at hok
        have := ih (n + 1) st st' hlook hok
        have hGc : containsGlitch line = false := by
          cases hv : containsGlitch line
          · rfl
          · exact absurd hv hG
        simp only [List.takeWhile_cons, hHc, Bool.not_false, if_true, List.any_cons, hGc,
          Bool.false_or] at this ⊢
        exact this

/-- C5: for every freshly constructed parser (dialect defaulted to Power
Compiler), a successful read_logfile run latches the dialect from the lines
strictly before the first Hierarchy marker line (Prime Power exactly when a
glitch/x-tran marker occurs there), and once the body state is entered the
dialect never changes, so every record of the file is extracted with that
single latched dialect's grammar. -/
theorem c5_dialect_latch :
    (∀ (ph : power_hierarchy) (lines : List String) (ph' : power_hierarchy),
      ph.logfile_format = Dialect.PowerCompiler →
      read_logfile ph lines = Except.ok ph' →
      ph'.logfile_format = latchDialect lines) ∧
    (∀ (md : Option Nat) (lines : List String) (n : Nat) (st st' : LoopSt),
      st.look_for_power_nums = true →
      readLoop md lines n st = Except.ok st' →
      st'.logfile_format = st.logfile_format) := by
  constructor
  · intro ph lines ph' hpc hok
    unfold read_logfile at hok
    cases hrl : readLoop ph.max_depth lines 0 ⟨false, ph.logfile_format, [], -1, ph.data⟩ with
    | error e => rw [hrl] at hok; exact absurd hok (by simp)
    | ok st =>
      rw [hrl] at hok
      cases hok
      have := readLoop_seek_fmt ph.max_depth lines 0
        ⟨false, ph.logfile_format, [], -1, ph.data⟩ st rfl hrl
      rw [latchDialect]
      simp only at this
      rw [this, hpc]
  · exact readLoop_body_fmt

/-- C5 witness: the concrete Power Compiler sample latches Power Compiler. -/
theorem c5_dialect_latch_witness :
    readC6.logfile_format = latchDialect linesC6 :=
  c5_dialect_latch.1 phDefault linesC6 readC6 rfl rfl

/-! ## C4: lemmas about the dictionary and the insertion walk -/

theorem alFind_alSet_self : ∀ (t : Tree) (k : String) (v : Node),
    alFind (alSet t k v) k = some v := by
  intro t k v
  induction t with
  | nil => simp [alSet, alFind]
  | cons kv rest ih =>
    obtain ⟨k', v'⟩ := kv
    by_cases h : k' = k
    · subst h; simp [alSet, alFind]
    · simp [alSet, alFind, h, ih]

theorem alFind_alSet_ne : ∀ (t : Tree) (k k' : String) (v : Node), k' ≠ k →
    alFind (alSet t k v) k' = alFind t k' := by
  intro t k k' v hne
  have hkk : ¬ (k = k') := fun hh => hne hh.symm
  induction t with
  | nil => simp [alSet, alFind, hkk]
  | cons kv rest ih =>
    obtain ⟨k₀, v₀⟩ := kv
    by_cases h : k₀ = k
    · subst h
      simp [alSet, alFind, hkk]
    · simp only [alSet, if_neg h]
      by_cases h2 : k₀ = k'
      · subst h2; simp [alFind]
      · simp [alFind, h2, ih]

theorem lookupT_nil_tree : ∀ p, lookupT ([] : Tree) p = none := by
  intro p
  cases p with
  | nil => rfl
  | cons k ks => cases ks <;> rfl

theorem lookupT_nil_path (t : Tree) : lookupT t [] = none := rfl

theorem lookupT_single (t : Tree) (k : String) : lookupT t [k] = alFind t k := rfl

theorem lookupT_cons_cons (t : Tree) (k k2 : String) (ks : List String) :
    lookupT t (k :: k2 :: ks) =
      match alFind t k with
      | some (Node.interior m) => lookupT m (k2 :: ks)
      | _ => none := rfl

theorem lookupT_cons_interior (t : Tree) (k : String) (m : Tree)
    (ks : List String) (hfind : alFind t k = some (Node.interior m))
    (hne : ks ≠ []) : lookupT t (k :: ks) = lookupT m ks := by
  cases ks with
  | nil => exact absurd rfl hne
  | cons k2 ks2 => rw [lookupT_cons_cons, hfind]

theorem lookupT_alSet_single (t : Tree) (k : String) (v : Node) :
    lookupT (alSet t k v) [k] = some v := by
  rw [lookupT_single, alFind_alSet_self]

theorem lookupT_alSet_ne (t : Tree) (k k' : String) (v : Node)
    (ks : List String) (h : k' ≠ k) :
    lookupT (alSet t k v) (k' :: ks) = lookupT t (k' :: ks) := by
  cases ks with
  | nil => rw [lookupT_single, lookupT_single, alFind_alSet_ne t k k' v h]
  | cons k2 ks2 => rw [lookupT_cons_cons, lookupT_cons_cons, alFind_alSet_ne t k k' v h]

theorem lookupT_alSet_cons_interior (t : Tree) (k : String) (m : Tree)
    (ks : List String) (hne : ks ≠ []) :
    lookupT (alSet t k (Node.interior m)) (k :: ks) = lookupT m ks :=
  lookupT_cons_interior _ _ _ _ (alFind_alSet_self t k _) hne

theorem lookupT_alSet_cons_leaf (t : Tree) (k : String) (g : one_power_group)
    (k2 : String) (ks : List String) :
    lookupT (alSet t k (Node.leaf g)) (k :: k2 :: ks) = none := by
  rw [lookupT_cons_cons, alFind_alSet_self]

/-- Descending through a path segment whose current value is already a leaf
record raises (TypeError on the final item assignment when the leaf sits at
the last segment, AttributeError on the keys() call otherwise): the
insertion never silently resolves it. -/
theorem walkInsert_leaf_prefix_error :
    ∀ (path : List String) (t : Tree) (inst : String) (g : one_power_group)
      (q : List String) (g₀ : one_power_group),
      q ≠ [] → q <+: path → lookupT t q = some (Node.leaf g₀) →
      ∃ e, walkInsert t path inst g = Except.error e := by
  intro path
  induction path with
  | nil =>
    intro t inst g q g₀ hne hpre _
    rw [List.prefix_nil] at hpre
    exact absurd hpre hne
  | cons p rest ih =>
    intro t inst g q g₀ hne hpre hleaf
    cases q with
    | nil => exact absurd rfl hne
    | cons q1 qtail =>
      obtain ⟨hq1, hqt⟩ := List.cons_prefix_cons.mp hpre
      subst hq1
      cases qtail with
      | nil =>
        rw [lookupT_single] at hleaf
        exact ⟨if rest.isEmpty then PyErr.typeError else PyErr.attributeError,
          by simp [walkInsert, hleaf]⟩
      | cons q2 qs =>
        rw [lookupT_cons_cons] at hleaf
        cases hfind : alFind t q1 with
        | none => rw [hfind] at hleaf; cases hleaf
        | some node =>
          cases node with
          | leaf g₁ =>
            exact ⟨if rest.isEmpty then PyErr.typeError else PyErr.attributeError,
              by simp [walkInsert, hfind]⟩
          | interior m =>
            rw [hfind] at hleaf
            obtain ⟨e, he⟩ := ih m inst g (q2 :: qs) g₀ (by simp) hqt hleaf
            exact ⟨e, by simp [walkInsert, hfind, he]⟩

/-- After a successful insertion the new record is the leaf at the walked
path extended by the instance name. -/
theorem walkInsert_ok_leaf_at :
    ∀ (path : List String) (t t' : Tree) (inst : String) (g : one_power_group),
      walkInsert t path inst g = Except.ok t' →
      lookupT t' (path ++ [inst]) = some (Node.leaf g) := by
  intro path
  induction path with
  | nil =>
    intro t t' inst g h
    simp only [walkInsert] at h
    cases h
    simpa using lookupT_alSet_single t inst (Node.leaf g)
  | cons p rest ih =>
    intro t t' inst g h
    simp only [walkInsert] at h
    split at h
    · split at h
      · rename_i m hw
        cases h
        show lookupT (alSet t p (Node.interior m)) (p :: (rest ++ [inst])) = _
        rw [lookupT_alSet_cons_interior t p m _ (by simp)]
        exact ih [] m inst g hw
      · cases h
    · rename_i m₀ hfind
      split at h
      · rename_i m' hw
        cases h
        show lookupT (alSet t p (Node.interior m')) (p :: (rest ++ [inst])) = _
        rw [lookupT_alSet_cons_interior t p m' _ (by simp)]
        exact ih m₀ m' inst g hw
      · cases h
    · cases h

/-- A successful insertion whose target slot (walked path extended by the
instance name) is not an interior node preserves every node kind. -/
theorem walkInsert_ok_pres :
    ∀ (path : List String) (t t' : Tree) (inst : String) (g : one_power_group),
      walkInsert t path inst g = Except.ok t' →
      (∀ m0, lookupT t (path ++ [inst]) ≠ some (Node.interior m0)) →
      (∀ p m, lookupT t p = some (Node.interior m) →
        ∃ m', lookupT t' p = some (Node.interior m')) ∧
      (∀ p g₀, lookupT t p = some (Node.leaf g₀) →
        ∃ g', lookupT t' p = some (Node.leaf g')) := by
  intro path
  induction path with
  | nil =>
    intro t t' inst g h hside
    simp only [walkInsert] at h
    cases h
    constructor
    · intro p m hp
      cases p with
      | nil => cases hp
      | cons k ks =>
        by_cases hk : k = inst
        · subst hk
          cases ks with
          | nil => exact absurd hp (hside m)
          | cons k2 ks2 =>
            rw [lookupT_cons_cons] at hp
            cases hfind : alFind t k with
            | none => rw [hfind] at hp; cases hp
            | some node =>
              cases node with
              | leaf g₁ => rw [hfind] at hp; cases hp
              | interior m₁ =>
                exact absurd (show lookupT t ([] ++ [k]) = some (Node.interior m₁) by
                  rw [List.nil_append, lookupT_single]; exact hfind) (hside m₁)
        · exact ⟨m, by rw [lookupT_alSet_ne t inst k _ ks hk]; exact hp⟩
    · intro p g₀ hp
      cases p with
      | nil => cases hp
      | cons k ks =>
        by_cases hk : k = inst
        · subst hk
          cases ks with
          | nil => exact ⟨g, lookupT_alSet_single t k (Node.leaf g)⟩
          | cons k2 ks2 =>
            rw [lookupT_cons_cons] at hp
            cases hfind : alFind t k with
            | none => rw [hfind] at hp; cases hp
            | some node =>
              cases node with
              | leaf g₁ => rw [hfind] at hp; cases hp
              | interior m₁ =>
                exact absurd (show lookupT t ([] ++ [k]) = some (Node.interior m₁) by
                  rw [List.nil_append, lookupT_single]; exact hfind) (hside m₁)
        · exact ⟨g₀, by rw [lookupT_alSet_ne t inst k _ ks hk]; exact hp⟩
  | cons p₀ rest ih =>
    intro t t' inst g h hside
    simp only [walkInsert] at h
    split at h
    · rename_i hfind
      split at h
      · rename_i m hw
        cases h
        constructor
        · intro p mq hp
          cases p with
          | nil => cases hp
          | cons k ks =>
            by_cases hk : k = p₀
            · subst hk
              exfalso
              cases ks with
              | nil => rw [lookupT_single, hfind] at hp; cases hp
              | cons k2 ks2 => rw [lookupT_cons_cons, hfind] at hp; cases hp
            · exact ⟨mq, by rw [lookupT_alSet_ne t p₀ k _ ks hk]; exact hp⟩
        · intro p g₀ hp
          cases p with
          | nil => cases hp
          | cons k ks =>
            by_cases hk : k = p₀
            · subst hk
              exfalso
              cases ks with
              | nil => rw [lookupT_single, hfind] at hp; cases hp
              | cons k2 ks2 => rw [lookupT_cons_cons, hfind] at hp; cases hp
            · exact ⟨g₀, by rw [lookupT_alSet_ne t p₀ k _ ks hk]; exact hp⟩
      · cases h
    · rename_i m₀ hfind
      split at h
      · rename_i m' hw
        cases h
        have hside' : ∀ m0, lookupT m₀ (rest ++ [inst]) ≠ some (Node.interior m0) := by
          intro m0 hcontra
          refine hside m0 ?_
          show lookupT t ((p₀ :: rest) ++ [inst]) = _
          rw [List.cons_append, lookupT_cons_interior t p₀ m₀ _ hfind (by simp)]
          exact hcontra
        obtain ⟨ihInt, ihLeaf⟩ := ih m₀ m' inst g hw hside'
        constructor
        · intro p mq hp
          cases p with
          | nil => cases hp
          | cons k ks =>
            by_cases hk : k = p₀
            · subst hk
              cases ks with
              | nil => exact ⟨m', lookupT_alSet_single t k (Node.interior m')⟩
              | cons k2 ks2 =>
                rw [lookupT_cons_interior t k m₀ _ hfind (by simp)] at hp
                obtain ⟨m'', hm''⟩ := ihInt (k2 :: ks2) mq hp
                refine ⟨m'', ?_⟩
                rw [lookupT_alSet_cons_interior t k m' _ (by simp)]
                exact hm''
            · exact ⟨mq, by rw [lookupT_alSet_ne t p₀ k _ ks hk]; exact hp⟩
        · intro p g₀ hp
          cases p with
          | nil => cases hp
          | cons k ks =>
            by_cases hk : k = p₀
            · subst hk
              cases ks with
              | nil => rw [lookupT_single, hfind] at hp; cases hp
              | cons k2 ks2 =>
                rw [lookupT_cons_interior t k m₀ _ hfind (by simp)] at hp
                obtain ⟨g', hg'⟩ := ihLeaf (k2 :: ks2) g₀ hp
                refine ⟨g', ?_⟩
                rw [lookupT_alSet_cons_interior t k m' _ (by simp)]
                exact hg'
            · exact ⟨g₀, by rw [lookupT_alSet_ne t p₀ k _ ks hk]; exact hp⟩
      · cases h
    · cases h

/-- A successful insertion creates interior nodes only along the walked
path and a leaf only at the walked path extended by the instance name. -/
theorem walkInsert_ok_new :
    ∀ (path : List String) (t t' : Tree) (inst : String) (g : one_power_group),
      walkInsert t path inst g = Except.ok t' →
      ∀ p, lookupT t p = none →
        (∀ m', lookupT t' p = some (Node.interior m') → p ≠ [] ∧ p <+: path) ∧
        (∀ g', lookupT t' p = some (Node.leaf g') → p = path ++ [inst]) := by
  intro path
  induction path with
  | nil =>
    intro t t' inst g h p hp
    simp only [walkInsert] at h
    cases h
    cases p with
    | nil =>
      constructor
      · intro m' hm'
        rw [lookupT_nil_path] at hm'
        cases hm'
      · intro g' hg'
        rw [lookupT_nil_path] at hg'
        cases hg'
    | cons k ks =>
      by_cases hk : k = inst
      · subst hk
        cases ks with
        | nil =>
          constructor
          · intro m' hm'
            rw [lookupT_alSet_single] at hm'
            cases hm'
          · intro g' _
            rfl
        | cons k2 ks2 =>
          constructor
          · intro m' hm'
            rw [lookupT_alSet_cons_leaf] at hm'
            cases hm'
          · intro g' hg'
            rw [lookupT_alSet_cons_leaf] at hg'
            cases hg'
      · constructor
        · intro m' hm'
          rw [lookupT_alSet_ne t inst k _ ks hk, hp] at hm'
          cases hm'
        · intro g' hg'
          rw [lookupT_alSet_ne t inst k _ ks hk, hp] at hg'
          cases hg'
  | cons p₀ rest ih =>
    intro t t' inst g h p hp
    simp only [walkInsert] at h
    split at h
    · rename_i hfind
      split at h
      · rename_i m hw
        cases h
        cases p with
        | nil =>
          constructor
          · intro m' hm'
            rw [lookupT_nil_path] at hm'
            cases hm'
          · intro g' hg'
            rw [lookupT_nil_path] at hg'
            cases hg'
        | cons k ks =>
          by_cases hk : k = p₀
          · subst hk
            cases ks with
            | nil =>
              constructor
              · intro m' _
                exact ⟨by simp, List.cons_prefix_cons.mpr ⟨rfl, List.nil_prefix⟩⟩
              · intro g' hg'
                rw [lookupT_alSet_single] at hg'
                cases hg'
            | cons k2 ks2 =>
              have hnil : lookupT ([] : Tree) (k2 :: ks2) = none := lookupT_nil_tree _
              have hrec := ih [] m inst g hw (k2 :: ks2) hnil
              constructor
              · intro m' hm'
                rw [lookupT_alSet_cons_interior t k m _ (by simp)] at hm'
                obtain ⟨hne, hpre⟩ := hrec.1 m' hm'
                exact ⟨by simp, List.cons_prefix_cons.mpr ⟨rfl, hpre⟩⟩
              · intro g' hg'
                rw [lookupT_alSet_cons_interior t k m _ (by simp)] at hg'
                have := hrec.2 g' hg'
                rw [this]
                rfl
          · constructor
            · intro m' hm'
              rw [lookupT_alSet_ne t p₀ k _ ks hk, hp] at hm'
              cases hm'
            · intro g' hg'
              rw [lookupT_alSet_ne t p₀ k _ ks hk, hp] at hg'
              cases hg'
      · cases h
    · rename_i m₀ hfind
      split at h
      · rename_i m' hw
        cases h
        cases p with
        | nil =>
          constructor
          · intro mq hm'
            rw [lookupT_nil_path] at hm'
            cases hm'
          · intro g' hg'
            rw [lookupT_nil_path] at hg'
            cases hg'
        | cons k ks =>
          by_cases hk : k = p₀
          · subst hk
            cases ks with
            | nil =>
              exfalso
              rw [lookupT_single, hfind] at hp
              cases hp
            | cons k2 ks2 =>
              rw [lookupT_cons_interior t k m₀ _ hfind (by simp)] at hp
              have hrec := ih m₀ m' inst g hw (k2 :: ks2) hp
              constructor
              · intro mq hm'
                rw [lookupT_alSet_cons_interior t k m' _ (by simp)] at hm'
                obtain ⟨hne, hpre⟩ := hrec.1 mq hm'
                exact ⟨by simp, List.cons_prefix_cons.mpr ⟨rfl, hpre⟩⟩
              · intro g' hg'
                rw [lookupT_alSet_cons_interior t k m' _ (by simp)] at hg'
                have := hrec.2 g' hg'
                rw [this]
                rfl
          · constructor
            · intro mq hm'
              rw [lookupT_alSet_ne t p₀ k _ ks hk, hp] at hm'
              cases hm'
            · intro g' hg'
              rw [lookupT_alSet_ne t p₀ k _ ks hk, hp] at hg'
              cases hg'
      · cases h
    · cases h

/-- A successful stack update appends the instance name to a prefix of the
old stack. -/
theorem updStack_shape :
    ∀ (stk : List String) (prev : Int) (level : Nat) (inst : String)
      (stk' : List String),
      updStack stk prev level inst = Except.ok stk' →
      ∃ r, r <+: stk ∧ stk' = r ++ [inst] := by
  intro stk prev level inst stk' h
  unfold updStack at h
  split at h
  · cases h
  · cases h
  · rename_i s ss heq
    cases h
    split at heq
    · injection heq with h2
      refine ⟨(s :: ss).dropLast, ?_, rfl⟩
      rw [← h2, List.dropLast_concat]
    · split at heq
      · split at heq
        · cases heq
        · injection heq with h2
          refine ⟨(s :: ss).dropLast, ?_, rfl⟩
          rw [← h2]
          exact (List.dropLast_prefix _).trans (List.take_prefix _ stk)
      · injection heq with h2
        refine ⟨(s :: ss).dropLast, ?_, rfl⟩
        rw [← h2]
        exact List.dropLast_prefix stk

theorem insertSafe_of_inv (st : LoopSt) (hinv : Inv st) (lvl : Nat)
    (inst : String) (g : one_power_group) :
    ∀ stk', updStack st.hier_list st.prev_level lvl inst = Except.ok stk' →
      InsertSafe st.data stk' inst g := by
  intro stk' hupd t' hw
  obtain ⟨r, hrpre, rfl⟩ := updStack_shape _ _ _ _ _ hupd
  have hside : ∀ m0,
      lookupT st.data ((r ++ [inst]) ++ [inst]) ≠ some (Node.interior m0) := by
    intro m0 hc
    exact hinv.2.1 _ m0 hc ⟨r, inst, by simp⟩
  exact walkInsert_ok_pres _ _ _ _ _ hw hside

theorem step_preserves :
    ∀ (st : LoopSt) (lvl : Nat) (inst : String) (g : one_power_group)
      (st' : LoopSt),
      Inv st → stepRecord st lvl inst g = Except.ok st' →
      kindPres st.data st'.data ∧ Inv st' := by
  intro st lvl inst g st' hinv hstep
  obtain ⟨hleafI, hintI, hstkI⟩ := hinv
  unfold stepRecord at hstep
  split at hstep
  · cases hstep
  · rename_i stk' hupd
    split at hstep
    · cases hstep
    · rename_i t' hw
      cases hstep
      obtain ⟨r, hrpre, rfl⟩ := updStack_shape _ _ _ _ _ hupd
      have hside : ∀ m0,
          lookupT st.data ((r ++ [inst]) ++ [inst]) ≠ some (Node.interior m0) := by
        intro m0 hc
        exact hintI _ m0 hc ⟨r, inst, by simp⟩
      obtain ⟨presInt, presLeaf⟩ := walkInsert_ok_pres _ _ _ _ _ hw hside
      have hnew := walkInsert_ok_new _ _ _ _ _ hw
      have hleafAt := walkInsert_ok_leaf_at _ _ _ _ _ hw
      refine ⟨⟨presInt, presLeaf⟩, ?_, ?_, ?_⟩
      · intro p g₀ hp
        cases holdp : lookupT st.data p with
        | some node =>
          cases node with
          | leaf g₁ => exact hleafI p g₁ holdp
          | interior m =>
            obtain ⟨m', hm'⟩ := presInt p m holdp
            rw [hp] at hm'
            cases hm'
        | none =>
          have hpeq := (hnew p holdp).2 g₀ hp
          subst hpeq
          exact ⟨r, inst, by simp⟩
      · intro p m' hp
        cases holdp : lookupT st.data p with
        | some node =>
          cases node with
          | interior m => exact hintI p m holdp
          | leaf g₁ =>
            obtain ⟨g', hg'⟩ := presLeaf p g₁ holdp
            rw [hp] at hg'
            cases hg'
        | none =>
          obtain ⟨hpne, hppre⟩ := (hnew p holdp).1 m' hp
          rintro ⟨q, x, rfl⟩
          have hqx : (q ++ [x]) <+: (r ++ [inst]) := by
            have h1 : (q ++ [x]) <+: (q ++ [x, x]) := ⟨[x], by simp⟩
            exact h1.trans hppre
          rcases List.prefix_concat_iff.mp hqx with heq | hpre2
          · have hq : q = r ∧ x = inst := by
              have := List.append_inj' heq rfl
              simpa using this
            obtain ⟨rfl, rfl⟩ := hq
            rw [show q ++ [x, x] = (q ++ [x]) ++ [x] by simp] at hp
            rw [hleafAt] at hp
            cases hp
          · have hpr : (q ++ [x]) <+: st.hier_list := hpre2.trans hrpre
            obtain ⟨g₂, hg₂⟩ := hstkI q x hpr
            rw [holdp] at hg₂
            cases hg₂
      · intro q x hqx
        rcases List.prefix_concat_iff.mp hqx with heq | hpre2
        · have hq : q = r ∧ x = inst := by
            have := List.append_inj' heq rfl
            simpa using this
          obtain ⟨rfl, rfl⟩ := hq
          refine ⟨g, ?_⟩
          rw [show q ++ [x, x] = (q ++ [x]) ++ [x] by simp]
          exact hleafAt
        · have hpr : (q ++ [x]) <+: st.hier_list := hpre2.trans hrpre
          obtain ⟨g₂, hg₂⟩ := hstkI q x hpr
          obtain ⟨g', hg'⟩ := presLeaf _ g₂ hg₂
          exact ⟨g', hg'⟩

theorem safeRun_of_inv :
    ∀ (recs : List (Nat × String × one_power_group)) (st : LoopSt),
      Inv st → SafeRun st recs := by
  intro recs
  induction recs with
  | nil => intro st _; trivial
  | cons r0 rest ih =>
    intro st hinv
    obtain ⟨lvl, inst, g⟩ := r0
    refine ⟨insertSafe_of_inv st hinv lvl inst g, ?_⟩
    intro st' hstep
    exact ih st' (step_preserves st lvl inst g st' hinv hstep).2

theorem inv_init (fmt : Dialect) : Inv ⟨false, fmt, [], -1, []⟩ := by
  refine ⟨?_, ?_, ?_⟩
  · intro p g hp
    rw [lookupT_nil_tree] at hp
    cases hp
  · intro p m hp
    rw [lookupT_nil_tree] at hp
    cases hp
  · intro q x hqx
    rw [List.prefix_nil] at hqx
    exact absurd hqx (by simp)

/-- C4: during read_logfile, attempting to descend through a path segment
whose current value is already a one_power_group leaf raises (TypeError or
AttributeError, aborting the parse), and no insertion performed from the
initial state ever silently replaces one node kind with the other: in every
run over any sequence of accepted records, each successful stack update and
tree insertion preserves the interior/leaf kind of every existing path (in
particular no interior dictionary is ever overwritten by a leaf). -/
theorem c4_ambiguous_insertion_safe :
    (∀ (path : List String) (t : Tree) (inst : String) (g : one_power_group)
      (q : List String) (g₀ : one_power_group),
      q ≠ [] → q <+: path → lookupT t q = some (Node.leaf g₀) →
      ∃ e, walkInsert t path inst g = Except.error e) ∧
    (∀ (recs : List (Nat × String × one_power_group)) (fmt : Dialect),
      SafeRun ⟨false, fmt, [], -1, []⟩ recs) :=
  ⟨walkInsert_leaf_prefix_error,
   fun recs fmt => safeRun_of_inv recs _ (inv_init fmt)⟩

/-- C4 witness: inserting below an existing leaf raises. -/
theorem c4_ambiguous_insertion_safe_witness :
    ∃ e, walkInsert [("A", Node.leaf (mkLeaf 0))] ["A", "B"] "B" (mkLeaf 1) =
      Except.error e :=
  c4_ambiguous_insertion_safe.1 ["A", "B"] [("A", Node.leaf (mkLeaf 0))] "B"
    (mkLeaf 1) ["A"] (mkLeaf 0) (by decide) (by decide) (by rfl)

end PowerReport
